import Mathlib

/-!
Verification development for the classroom-schedule web application
(`script.js`, `service-worker.js`).

The JavaScript sources are shallowly embedded: pure computations become Lean
functions, the localStorage slot becomes an explicit `Option String` value
threaded through the operations, thrown exceptions become `Except Unit`
results, and host facilities used by the source (the ECMAScript `Date`
calendar, `JSON.parse`/`JSON.stringify`, `parseInt`, `String.prototype`
methods, array sort) are modelled from their ECMAScript semantics.
Machine numbers appearing in the claims are integers well inside the exact
float range, so they are embedded as `Int`/`Nat`.
-/


/-! ## Proleptic Gregorian calendar (host `Date` semantics)

The source relies on the host's `Date` object (lines 96-117 of `script.js`)
to turn cell values into `YYYY-MM-DD` strings.  ECMAScript time values are
milliseconds since 1970-01-01T00:00Z interpreted in the proleptic Gregorian
calendar; the field accessors below are the standard civil-from-day-number
and day-number-from-civil conversions (months `1..12`, days `1..31`). -/

/-- Day of the shifted (March-first) year at which shifted month `mp` starts,
plus the day offset: `doyFromMp mp d` is day `d` of shifted month `mp`. -/
def doyFromMp (mp d : Int) : Int := (153 * mp + 2) / 5 + d - 1

/-- Day of era at which year-of-era `yoe` starts. -/
def soyOfYoe (yoe : Int) : Int := 365 * yoe + yoe / 4 - yoe / 100

/-- Year of era recovered from a day of era. -/
def yoeFromDoe (doe : Int) : Int := (doe - doe / 1460 + doe / 36524 - doe / 146096) / 365

/-- Shifted year: January and February count into the preceding year. -/
def yShiftOf (y m : Int) : Int := if m ≤ 2 then y - 1 else y

/-- Day number (days since 1970-01-01) of the civil date `(y, m, d)`. -/
def daysFromCivil (y m d : Int) : Int :=
  (yShiftOf y m / 400) * 146097
    + soyOfYoe (yShiftOf y m - yShiftOf y m / 400 * 400)
    + doyFromMp ((m + 9) % 12) d - 719468

/-- 400-year era containing day number `z`. -/
def eraOf (z : Int) : Int := (z + 719468) / 146097

/-- Day of era of day number `z`. -/
def doeOf (z : Int) : Int := z + 719468 - eraOf z * 146097

/-- Year of era of day number `z`. -/
def yoeOf (z : Int) : Int := yoeFromDoe (doeOf z)

/-- Day of shifted year of day number `z`. -/
def doyOf (z : Int) : Int := doeOf z - soyOfYoe (yoeOf z)

/-- Shifted month of day number `z`. -/
def mpOf (z : Int) : Int := (5 * doyOf z + 2) / 153

/-- Civil month (`1..12`) of day number `z`. -/
def monthOf (z : Int) : Int := if mpOf z < 10 then mpOf z + 3 else mpOf z - 9

/-- Civil day of month of day number `z`. -/
def dayOf (z : Int) : Int := doyOf z - (153 * mpOf z + 2) / 5 + 1

/-- Civil year of day number `z`. -/
def yearOf (z : Int) : Int := (if monthOf z ≤ 2 then 1 else 0) + (yoeOf z + eraOf z * 400)

/-- Civil date `(year, month, day)` of day number `z`. -/
def civilFromDays (z : Int) : Int × Int × Int := (yearOf z, monthOf z, dayOf z)

/-- Gregorian leap-year rule. -/
def isLeap (y : Int) : Bool := y % 4 == 0 && (y % 100 != 0 || y % 400 == 0)

/-- Number of days in month `m` of year `y`. -/
def daysInMonth (y m : Int) : Int :=
  if m = 2 then (if isLeap y then 29 else 28)
  else if m = 4 ∨ m = 6 ∨ m = 9 ∨ m = 11 then 30
  else 31

/-! ## ECMAScript primitive operations

String and number helpers of the host environment used by `script.js`:
`Number.prototype.toString`, `String.prototype.padStart(n, '0')`,
`String.prototype.trim`, `String.prototype.split`, `parseInt`. -/

/-- Decimal digits of `n`, most significant first, prepended to `acc`.
The first argument is fuel; `n` itself is always sufficient fuel. -/
def natToDigits : Nat → Nat → List Char → List Char
  | 0, n, acc => Char.ofNat (48 + n % 10) :: acc
  | fuel + 1, n, acc =>
    if n < 10 then Char.ofNat (48 + n % 10) :: acc
    else natToDigits fuel (n / 10) (Char.ofNat (48 + n % 10) :: acc)

/-- Decimal digit list of a natural number. -/
def jsNatDigits (n : Nat) : List Char := natToDigits n n []

/-- `Number.prototype.toString` for a natural number. -/
def jsNatToString (n : Nat) : String := String.mk (jsNatDigits n)

/-- `Number.prototype.toString` for an integer. -/
def jsIntToString (i : Int) : String :=
  if i < 0 then "-" ++ jsNatToString i.natAbs else jsNatToString i.natAbs

/-- `toString` of a JS number that may be `NaN` (`none`). -/
def numOptToString : Option Int → String
  | none => "NaN"
  | some i => jsIntToString i

/-- `String.prototype.padStart(n, '0')`. -/
def padStartZeros (s : String) (n : Nat) : String :=
  if n ≤ s.length then s else String.mk (List.replicate (n - s.length) '0' ++ s.toList)

/-- `String.prototype.trim` (leading and trailing whitespace removed). -/
def jsTrim (s : String) : String :=
  String.mk (((s.toList.dropWhile Char.isWhitespace).reverse.dropWhile Char.isWhitespace).reverse)

/-- `String.prototype.split` against a character class, keeping empty pieces,
exactly as the ECMAScript split with a single-character-class regex does. -/
def splitList (p : Char → Bool) : List Char → List (List Char)
  | [] => [[]]
  | c :: cs =>
    match splitList p cs with
    | [] => [[]]
    | h :: t => if p c then [] :: h :: t else (c :: h) :: t

/-- `String.prototype.split` on a character predicate. -/
def jsSplit (s : String) (p : Char → Bool) : List String :=
  (splitList p s.toList).map String.mk

/-- Integer value accumulated from a run of decimal digit characters. -/
def digitsToInt (l : List Char) : Int :=
  l.foldl (fun acc c => acc * 10 + ((c.toNat : Int) - 48)) 0

/-- ECMAScript `parseInt(s, 10)` (also `parseInt(s)` on the decimal strings the
claims concern; the `0x` prefix of radix-16 inference is outside their scope):
skip leading whitespace, read an optional sign and a maximal run of decimal
digits, ignore the rest; `none` models a `NaN` result. -/
def jsParseInt (s : String) : Option Int :=
  let l := s.toList.dropWhile Char.isWhitespace
  let signed : Int × List Char :=
    match l with
    | '-' :: rest => (-1, rest)
    | '+' :: rest => (1, rest)
    | _ => (1, l)
  let digits := signed.2.takeWhile Char.isDigit
  if digits.isEmpty then none else some (signed.1 * digitsToInt digits)

/-! ## Host `Date` values

A JS `Date` is modelled as `Option Int`: `some t` is a time value of `t`
milliseconds since the epoch, `none` is an Invalid Date (`NaN` time value).
`tz` is the local-time offset east of UTC in minutes; the source reads
dates back with the local-time accessors `getFullYear`/`getMonth`/`getDate`,
so the offset is an explicit parameter of every operation that uses them. -/

/-- `TimeClip`: time values are limited to ±8.64e15 ms; outside that range the
`Date` is invalid. -/
def mkJsTime (t : Int) : Option Int :=
  if -8640000000000000 ≤ t ∧ t ≤ 8640000000000000 then some t else none

/-- Local day number containing time value `ms` at offset `tz` minutes. -/
def localDayOf (tz ms : Int) : Int := (ms + tz * 60000) / 86400000

/-- `getFullYear()` in local time. -/
def jsGetFullYear (tz : Int) (d : Option Int) : Option Int :=
  d.map fun ms => yearOf (localDayOf tz ms)

/-- `getMonth()` in local time (0-based month). -/
def jsGetMonth (tz : Int) (d : Option Int) : Option Int :=
  d.map fun ms => monthOf (localDayOf tz ms) - 1

/-- `getDate()` in local time (day of month). -/
def jsGetDate (tz : Int) (d : Option Int) : Option Int :=
  d.map fun ms => dayOf (localDayOf tz ms)

/-- `MakeDay(y, m, d)`: day number with month rollover, month `m` 0-based. -/
def jsMakeDay (y m d : Int) : Int :=
  daysFromCivil (y + m / 12) (m % 12 + 1) 1 + (d - 1)

/-- `new Date(y, m, d)` (local-time constructor): years `0..99` are offset by
1900, the local civil day is converted to UTC, and the result is clipped. -/
def jsDateCtorYMD (tz y m d : Int) : Option Int :=
  mkJsTime (jsMakeDay (if 0 ≤ y ∧ y ≤ 99 then y + 1900 else y) m d * 86400000 - tz * 60000)

/-- Numeric value of a decimal digit character. -/
def digitVal (c : Char) : Int := (c.toNat : Int) - 48

/-- `new Date(string)` on a date-only ISO literal `YYYY-MM-DD`, which
ECMA-262 interprets as midnight UTC; the host-specific fallback formats for
other literals are outside the claims' scope and are modelled as Invalid. -/
def jsDateFromString (s : String) : Option Int :=
  match s.toList with
  | [y1, y2, y3, y4, s1, m1, m2, s2, d1, d2] =>
    if y1.isDigit ∧ y2.isDigit ∧ y3.isDigit ∧ y4.isDigit ∧ s1 = '-'
        ∧ m1.isDigit ∧ m2.isDigit ∧ s2 = '-' ∧ d1.isDigit ∧ d2.isDigit then
      let y := digitVal y1 * 1000 + digitVal y2 * 100 + digitVal y3 * 10 + digitVal y4
      let m := digitVal m1 * 10 + digitVal m2
      let d := digitVal d1 * 10 + digitVal d2
      if 1 ≤ m ∧ m ≤ 12 ∧ 1 ≤ d ∧ d ≤ daysInMonth y m then
        mkJsTime (daysFromCivil y m d * 86400000)
      else none
    else none
  | _ => none

/-! ## Spreadsheet cells and date normalization (`script.js` lines 92-117) -/

/-- A cell of the 2-D array produced by `sheet_to_json(sheet, {header: 1,
defval: ''})`: a string, a number (integral in the claims' scope), or a
`Date` object with time value `ms`. -/
inductive Cell where
  | str (s : String)
  | num (n : Int)
  | date (ms : Int)
deriving DecidableEq, Repr

/-- ECMAScript truthiness of a cell value (`''` and `0` are falsy). -/
def cellTruthy : Cell → Bool
  | .str s => s ≠ ""
  | .num n => n ≠ 0
  | .date _ => true

/-- ECMAScript `ToString` of a cell value.  `Date.prototype.toString` produces
an implementation- and zone-dependent human-readable form; no claim depends on
it, and it is modelled by a placeholder rendering of the time value. -/
def cellToString : Cell → String
  | .str s => s
  | .num n => jsIntToString n
  | .date ms => "[Date " ++ jsIntToString ms ++ "]"

/-- Time value of `Date.UTC(1899, 11, 30)`, the legacy spreadsheet epoch used
at line 102 of `script.js`. -/
def sheetEpochMs : Int := daysFromCivil 1899 12 30 * 86400000

/-- Lines 96-113 of `script.js`: convert a date cell into a JS `Date`.
A `Date` cell is used directly; a number `n` yields
`new Date(epoch.getTime() + n * 24 * 60 * 60 * 1000)`; a string is split on
`.` or `/` — exactly three parts are read positionally as day, month, year
through `parseInt` and the local `Date` constructor, anything else goes to
`new Date(string)`. -/
def dateCellToJsDate (tz : Int) : Cell → Option Int
  | .date ms => some ms
  | .num n => mkJsTime (sheetEpochMs + n * 86400000)
  | .str s =>
    match jsSplit s (fun c => c = '.' || c = '/') with
    | [ds, ms', ys] =>
      match jsParseInt ds, jsParseInt ms', jsParseInt ys with
      | some dv, some mv, some yv => jsDateCtorYMD tz yv (mv - 1) dv
      | _, _, _ => none
    | _ => jsDateFromString s

/-- Lines 114-117 of `script.js`: render a JS `Date` as
`${yyyy}-${mm}-${dd}` with `padStart` zero padding; the month accessor is
`getMonth() + 1`.  An Invalid Date renders as `0NaN-NaN-NaN`. -/
def isoStringOfDate (tz : Int) (d : Option Int) : String :=
  padStartZeros (numOptToString (jsGetFullYear tz d)) 4 ++ "-" ++
  padStartZeros (numOptToString ((jsGetMonth tz d).map (· + 1))) 2 ++ "-" ++
  padStartZeros (numOptToString (jsGetDate tz d)) 2

/-- The complete date-cell normalization of lines 96-117: cell to `Date` to
`YYYY-MM-DD` string. -/
def normalizeDate (tz : Int) (c : Cell) : String :=
  isoStringOfDate tz (dateCellToJsDate tz c)

/-! ## Ingestion (`parseScheduleFile`, `script.js` lines 63-140)

The workbook decode performed by the external SheetJS library
(`XLSX.read` + `sheet_to_json`) is represented by its result: either a 2-D
array of cells or a thrown exception (`Except.error`).  Everything after the
decode is embedded from the source. -/

/-- One parsed schedule entry as pushed at line 128 of `script.js`.
`end` is a Lean keyword, so that field is called `endT`. -/
structure ScheduleEntry where
  date : String
  start : String
  endT : String
  dayOfWeek : String
  discipline : String
  type : String
  group : String
  building : String
  room : String
  teacher : String
deriving DecidableEq, Repr

/-- Lines 74-76: the header row is the first row containing both literal
labels; `includes` uses strict equality, so only string cells match. -/
def findHeaderIndex (rows : List (List Cell)) : Option Nat :=
  rows.findIdx? fun row =>
    row.contains (Cell.str "Дата") && row.contains (Cell.str "Время начала")

/-- Lines 83-88: `headerRow.forEach((cell, idx) => ...)` filling a plain
object; a later occurrence of the same trimmed label overwrites an earlier
one.  The mapping is modelled as a function updated in element order,
starting at index `i`. -/
def buildHeaderMapFrom : List Cell → Nat → (String → Option Nat) → (String → Option Nat)
  | [], _, m => m
  | c :: rest, i, m =>
    buildHeaderMapFrom rest (i + 1)
      (match c with
       | .str s => if 0 < (jsTrim s).length then
           (fun k => if k = jsTrim s then some i else m k)
         else m
       | _ => m)

/-- The header-label-to-column-index mapping built from the header row. -/
def buildHeaderMap (headerRow : List Cell) : String → Option Nat :=
  buildHeaderMapFrom headerRow 0 (fun _ => none)

/-- `row[i]` for an optional index: `row[undefined]` and out-of-range reads
give `undefined` (`none`). -/
def cellAt (row : List Cell) (oi : Option Nat) : Option Cell :=
  oi.bind row.get?

/-- Truthiness of an optional cell (`undefined` is falsy). -/
def cellTruthyOpt : Option Cell → Bool
  | none => false
  | some c => cellTruthy c

/-- Lines 119-127: `(row[...] || '').toString().trim()`. -/
def fieldStr (oc : Option Cell) : String :=
  match oc with
  | some c => if cellTruthy c then jsTrim (cellToString c) else ""
  | none => ""

/-- Lines 96-128: the entry built from one data row whose date cell is
`dateCell`. -/
def eventOfRow (tz : Int) (M : String → Option Nat) (row : List Cell)
    (dateCell : Cell) : ScheduleEntry where
  date := normalizeDate tz dateCell
  start := fieldStr (cellAt row (M "Время начала"))
  endT := fieldStr (cellAt row (M "Время окончания"))
  dayOfWeek := fieldStr (cellAt row (M "День недели"))
  discipline := fieldStr (cellAt row (M "Дисциплина"))
  type := fieldStr (cellAt row (M "Вид работы"))
  group := fieldStr (cellAt row (M "Контингент"))
  building := fieldStr (cellAt row (M "Корпус"))
  room := fieldStr (cellAt row (M "Аудитория"))
  teacher := fieldStr (cellAt row (M "Преподаватель"))

/-- Lines 74-129: locate the header, build the label map, keep the data rows
after the header whose date cell is truthy, and push one entry per kept row.
`none` is the `headerIndex === -1` early-return (alert) path.  The inner
`if (!rawDate) return;` of the `forEach` is kept as in the source. -/
def parsedEvents (tz : Int) (rows : List (List Cell)) : Option (List ScheduleEntry) :=
  match findHeaderIndex rows with
  | none => none
  | some hi =>
    let M := buildHeaderMap (rows.getD hi [])
    let dataRows := (rows.drop (hi + 1)).filter fun r =>
      decide (0 < r.length) && cellTruthyOpt (cellAt r (M "Дата"))
    some (dataRows.foldl (fun evs row =>
      match cellAt row (M "Дата") with
      | none => evs
      | some c => if cellTruthy c then evs ++ [eventOfRow tz M row c] else evs) [])

/-! ## `JSON.stringify` of the parsed events (line 131)

`JSON.stringify` is applied only to the array of entry objects the parser
just built, so only that shape needs a serializer. -/

/-- JSON string-literal escaping. -/
def jsonEscChar (c : Char) : List Char :=
  if c = '"' then ['\\', '"']
  else if c = '\\' then ['\\', '\\']
  else if c = '\n' then ['\\', 'n']
  else if c = '\r' then ['\\', 'r']
  else if c = '\t' then ['\\', 't']
  else if c.toNat = 8 then ['\\', 'b']
  else if c.toNat = 12 then ['\\', 'f']
  else if c.toNat < 32 then
    ['\\', 'u', '0', '0', Char.ofNat (48 + c.toNat / 16),
      if c.toNat % 16 < 10 then Char.ofNat (48 + c.toNat % 16)
      else Char.ofNat (87 + c.toNat % 16)]
  else [c]

/-- A JSON string literal. -/
def jsonQuote (s : String) : String :=
  String.mk ('"' :: s.toList.foldr (fun c acc => jsonEscChar c ++ acc) ['"'])

/-- `JSON.stringify` of one entry object; fields appear in the insertion
order of line 128 of `script.js`. -/
def stringifyEntry (e : ScheduleEntry) : String :=
  "\x7b\"date\":" ++ jsonQuote e.date ++ ",\"start\":" ++ jsonQuote e.start ++
  ",\"end\":" ++ jsonQuote e.endT ++ ",\"dayOfWeek\":" ++ jsonQuote e.dayOfWeek ++
  ",\"discipline\":" ++ jsonQuote e.discipline ++ ",\"type\":" ++ jsonQuote e.type ++
  ",\"group\":" ++ jsonQuote e.group ++ ",\"building\":" ++ jsonQuote e.building ++
  ",\"room\":" ++ jsonQuote e.room ++ ",\"teacher\":" ++ jsonQuote e.teacher ++ "\x7d"

/-- `JSON.stringify(events)`. -/
def stringifyEvents (evs : List ScheduleEntry) : String :=
  "[" ++ String.intercalate "," (evs.map stringifyEntry) ++ "]"

/-! ## `JSON.parse` (lines 166 and 225)

A small recursive-descent parser over the JSON value grammar, written as a
fuel-indexed step machine so that it is structurally recursive and fully
evaluable.  `none` models a thrown `SyntaxError`. -/

/-- Parsed JSON values.  JSON numbers that carry a fraction or exponent are
kept as their source token (`numF`); every number a claim touches is an
integer. -/
inductive Json where
  | null
  | bool (b : Bool)
  | num (n : Int)
  | numF (raw : String)
  | str (s : String)
  | arr (elems : List Json)
  | obj (fields : List (String × Json))

/-- JSON insignificant whitespace. -/
def jsonSkipWs (l : List Char) : List Char :=
  l.dropWhile fun c => c = ' ' || c = '\t' || c = '\n' || c = '\r'

/-- Value of a hexadecimal digit. -/
def hexDigitVal (c : Char) : Option Nat :=
  if '0' ≤ c ∧ c ≤ '9' then some (c.toNat - 48)
  else if 'a' ≤ c ∧ c ≤ 'f' then some (c.toNat - 87)
  else if 'A' ≤ c ∧ c ≤ 'F' then some (c.toNat - 55)
  else none

/-- JSON string-literal body (after the opening quote): accumulated
characters, then the remainder after the closing quote.  `\u` escapes take
the code unit directly; combining surrogate pairs is outside the claims'
scope. -/
def jsonStrBody (acc : List Char) : List Char → Option (String × List Char)
  | [] => none
  | '"' :: r => some (String.mk acc.reverse, r)
  | '\\' :: r =>
    match r with
    | '"' :: r2 => jsonStrBody ('"' :: acc) r2
    | '\\' :: r2 => jsonStrBody ('\\' :: acc) r2
    | '/' :: r2 => jsonStrBody ('/' :: acc) r2
    | 'b' :: r2 => jsonStrBody (Char.ofNat 8 :: acc) r2
    | 'f' :: r2 => jsonStrBody (Char.ofNat 12 :: acc) r2
    | 'n' :: r2 => jsonStrBody ('\n' :: acc) r2
    | 'r' :: r2 => jsonStrBody ('\r' :: acc) r2
    | 't' :: r2 => jsonStrBody ('\t' :: acc) r2
    | 'u' :: h1 :: h2 :: h3 :: h4 :: r2 =>
      match hexDigitVal h1, hexDigitVal h2, hexDigitVal h3, hexDigitVal h4 with
      | some v1, some v2, some v3, some v4 =>
        jsonStrBody (Char.ofNat (v1 * 4096 + v2 * 256 + v3 * 16 + v4) :: acc) r2
      | _, _, _, _ => none
    | _ => none
  | c :: r => if c.toNat < 32 then none else jsonStrBody (c :: acc) r

/-- JSON number token: JSON forbids leading zeros and requires digits around
`.` and after `e`.  Integer tokens become `Json.num`; tokens with a fraction
or exponent are kept raw as `Json.numF`. -/
def jsonNumToken (l : List Char) : Option (Json × List Char) :=
  let sign : Int × List Char := match l with
    | '-' :: r => (-1, r)
    | _ => (1, l)
  let intDigits := sign.2.takeWhile Char.isDigit
  let afterInt := sign.2.drop intDigits.length
  if intDigits.isEmpty then none
  else if 1 < intDigits.length ∧ intDigits.headD '0' = '0' then none
  else
    let fracPart : Option (List Char × List Char) := match afterInt with
      | '.' :: r =>
        let fd := r.takeWhile Char.isDigit
        if fd.isEmpty then none else some ('.' :: fd, r.drop fd.length)
      | _ => some ([], afterInt)
    match fracPart with
    | none => none
    | some (fchars, afterFrac) =>
      let expPart : Option (List Char × List Char) := match afterFrac with
        | 'e' :: r => (match r with
          | '+' :: r2 => (let ed := r2.takeWhile Char.isDigit
                          if ed.isEmpty then none else some ('e' :: '+' :: ed, r2.drop ed.length))
          | '-' :: r2 => (let ed := r2.takeWhile Char.isDigit
                          if ed.isEmpty then none else some ('e' :: '-' :: ed, r2.drop ed.length))
          | _ => (let ed := r.takeWhile Char.isDigit
                  if ed.isEmpty then none else some ('e' :: ed, r.drop ed.length)))
        | 'E' :: r => (match r with
          | '+' :: r2 => (let ed := r2.takeWhile Char.isDigit
                          if ed.isEmpty then none else some ('E' :: '+' :: ed, r2.drop ed.length))
          | '-' :: r2 => (let ed := r2.takeWhile Char.isDigit
                          if ed.isEmpty then none else some ('E' :: '-' :: ed, r2.drop ed.length))
          | _ => (let ed := r.takeWhile Char.isDigit
                  if ed.isEmpty then none else some ('E' :: ed, r.drop ed.length)))
        | _ => some ([], afterFrac)
      match expPart with
      | none => none
      | some (echars, rest) =>
        if fchars.isEmpty ∧ echars.isEmpty then
          some (Json.num (sign.1 * digitsToInt intDigits), rest)
        else
          some (Json.numF (String.mk
            ((if sign.1 < 0 then ['-'] else []) ++ intDigits ++ fchars ++ echars)), rest)

/-- A pending composite value on the parse stack. -/
inductive JFrame where
  | arr (done : List Json)
  | obj (done : List (String × Json)) (key : String)

/-- An object member key and its colon: `"key" :`. -/
def jsonKeyColon (l : List Char) : Option (String × List Char) :=
  match jsonSkipWs l with
  | '"' :: r =>
    match jsonStrBody [] r with
    | some (k, r2) =>
      match jsonSkipWs r2 with
      | ':' :: r3 => some (k, r3)
      | _ => none
    | none => none
  | _ => none

/-- The parser step machine.  `.inl input` parses one value at `input`;
`.inr (v, rest)` hands the completed value `v` back to the innermost open
composite.  Every step consumes at least one input character, so fuel
`length + 2` always suffices. -/
def jsonStep : Nat → (List Char ⊕ (Json × List Char)) → List JFrame → Option Json
  | 0, _, _ => none
  | fuel + 1, .inl input, stack =>
    match jsonSkipWs input with
    | 'n' :: 'u' :: 'l' :: 'l' :: r => jsonStep fuel (.inr (Json.null, r)) stack
    | 't' :: 'r' :: 'u' :: 'e' :: r => jsonStep fuel (.inr (Json.bool true, r)) stack
    | 'f' :: 'a' :: 'l' :: 's' :: 'e' :: r => jsonStep fuel (.inr (Json.bool false, r)) stack
    | '"' :: r =>
      (match jsonStrBody [] r with
       | some (s, r2) => jsonStep fuel (.inr (Json.str s, r2)) stack
       | none => none)
    | '[' :: r =>
      (match jsonSkipWs r with
       | ']' :: r2 => jsonStep fuel (.inr (Json.arr [], r2)) stack
       | _ => jsonStep fuel (.inl r) (.arr [] :: stack))
    | '{' :: r =>
      (match jsonSkipWs r with
       | '}' :: r2 => jsonStep fuel (.inr (Json.obj [], r2)) stack
       | _ =>
         match jsonKeyColon r with
         | some (k, r2) => jsonStep fuel (.inl r2) (.obj [] k :: stack)
         | none => none)
    | l' =>
      (match jsonNumToken l' with
       | some (v, r2) => jsonStep fuel (.inr (v, r2)) stack
       | none => none)
  | fuel + 1, .inr (v, rest), stack =>
    match stack with
    | [] => if (jsonSkipWs rest).isEmpty then some v else none
    | .arr done :: outer =>
      (match jsonSkipWs rest with
       | ',' :: r2 => jsonStep fuel (.inl r2) (.arr (done ++ [v]) :: outer)
       | ']' :: r2 => jsonStep fuel (.inr (Json.arr (done ++ [v]), r2)) outer
       | _ => none)
    | .obj done k :: outer =>
      (match jsonSkipWs rest with
       | ',' :: r2 =>
         (match jsonKeyColon r2 with
          | some (k2, r3) => jsonStep fuel (.inl r3) (.obj (done ++ [(k, v)]) k2 :: outer)
          | none => none)
       | '}' :: r2 => jsonStep fuel (.inr (Json.obj (done ++ [(k, v)]), r2)) outer
       | _ => none)

/-- `JSON.parse`: `none` models a thrown `SyntaxError`. -/
def jsonParse (s : String) : Option Json :=
  jsonStep (s.length + 2) (.inl s.toList) []

/-! ## View layer (`initSchedule`, `renderSchedule`, `escapeHtml`,
`script.js` lines 150-281)

The stored slot is read back as a `Json` value, and the renderer works on
those values the way the JS code works on the parsed objects.  Thrown
`TypeError`s (calling a string method on a non-string) are `Except.error`. -/

/-- Lines 274-281: successive global single-character replacements, `&`
first. -/
def replaceChar (s : String) (c : Char) (r : String) : String :=
  String.mk (s.toList.foldr (fun ch acc => if ch = c then r.toList ++ acc else ch :: acc) [])

/-- `escapeHtml` of `script.js`. -/
def escapeHtml (s : String) : String :=
  replaceChar (replaceChar (replaceChar (replaceChar
    (replaceChar s '&' "&amp;") '<' "&lt;") '>' "&gt;") '"' "&quot;") '\'' "&#39;"

/-- Property read `v[k]`: `undefined` for a missing key or a non-object
base.  `JSON.parse` keeps the last of duplicate keys.  (Reading a property
of `null` would throw; no claim exercises that corner and it reads as
`undefined` here.) -/
def jsonGet (v : Json) (k : String) : Option Json :=
  match v with
  | .obj fs => (fs.reverse.find? fun p => p.1 = k).map (·.2)
  | _ => none

/-- The parsed-JSON value of a stored entry object: `jsonParse` applied to
`stringifyEntry e` yields exactly this object (the fields in insertion
order with string values). -/
def ScheduleEntry.toJson (e : ScheduleEntry) : Json :=
  .obj [("date", .str e.date), ("start", .str e.start), ("end", .str e.endT),
    ("dayOfWeek", .str e.dayOfWeek), ("discipline", .str e.discipline),
    ("type", .str e.type), ("group", .str e.group), ("building", .str e.building),
    ("room", .str e.room), ("teacher", .str e.teacher)]

/-- The parsed-JSON value of a stored entry list. -/
def encodeEvents (evs : List ScheduleEntry) : Json :=
  .arr (evs.map ScheduleEntry.toJson)

/-- Nonzero test for a raw non-integer number token: some mantissa digit is
nonzero. -/
def numFNonzero (raw : String) : Bool :=
  (raw.toList.takeWhile fun c => c ≠ 'e' ∧ c ≠ 'E').any fun c => '1' ≤ c ∧ c ≤ '9'

/-- ECMAScript truthiness of a possibly-`undefined` parsed value. -/
def jsTruthy : Option Json → Bool
  | none => false
  | some .null => false
  | some (.bool b) => b
  | some (.num n) => n ≠ 0
  | some (.numF raw) => numFNonzero raw
  | some (.str s) => s ≠ ""
  | some (.arr _) => true
  | some (.obj _) => true

/-- Strict equality `===` between possibly-`undefined` parsed values.
Distinct positions of a parsed JSON document are distinct object references,
so composite values compare unequal. -/
def jsStrictEq : Option Json → Option Json → Bool
  | none, none => true
  | some .null, some .null => true
  | some (.bool a), some (.bool b) => a = b
  | some (.num a), some (.num b) => a = b
  | some (.numF a), some (.numF b) => a = b
  | some (.str a), some (.str b) => a = b
  | _, _ => false

/-- ECMAScript `ToString` of a possibly-`undefined` parsed value, as used by
template literals and the default array sort.  Claims display only strings,
so the array/object renderings are the scalar-level ones. -/
def jsDisplay : Option Json → String
  | none => "undefined"
  | some .null => "null"
  | some (.bool b) => if b then "true" else "false"
  | some (.num n) => jsIntToString n
  | some (.numF raw) => raw
  | some (.str s) => s
  | some (.arr _) => ""
  | some (.obj _) => "[object Object]"

/-- `new Set(xs)` iterated into an array: first occurrences in order, with
SameValueZero as the equality. -/
def jsSetDedup (xs : List (Option Json)) : List (Option Json) :=
  xs.foldl (fun acc x => if acc.any (fun y => jsStrictEq x y) then acc else acc ++ [x]) []

/-- Stable insertion into a sorted list: the new element goes after every
element that compares at or below it. -/
def insertLe {α : Type} (le : α → α → Bool) (x : α) : List α → List α
  | [] => [x]
  | y :: ys => if le y x then y :: insertLe le x ys else x :: y :: ys

/-- A stable sort.  ECMAScript requires `Array.prototype.sort` to be stable
and leaves the order unspecified when the comparator is inconsistent; for
consistent comparators every stable sort produces the same list, so a stable
insertion sort is a faithful model of the host sort. -/
def jsSortBy {α : Type} (le : α → α → Bool) (l : List α) : List α :=
  l.foldl (fun acc x => insertLe le x acc) []

/-- Lexicographic string comparison by code units, the ordering ECMAScript's
`<` uses on strings (identical to code-point order on the characters the
claims concern). -/
def charListLe : List Char → List Char → Bool
  | [], _ => true
  | _ :: _, [] => false
  | a :: as, b :: bs =>
    if a.toNat < b.toNat then true
    else if b.toNat < a.toNat then false
    else charListLe as bs

/-- `a <= b` on JS strings. -/
def jsStringLe (a b : String) : Bool := charListLe a.toList b.toList

/-- Default `Array.prototype.sort()`: `undefined` elements move to the end,
the rest are ordered by their `ToString` (code-unit order), stably. -/
def jsSortDefault (xs : List (Option Json)) : List (Option Json) :=
  jsSortBy (fun a b => jsStringLe (jsDisplay a) (jsDisplay b)) (xs.filter fun x => x.isSome)
    ++ xs.filter fun x => !x.isSome

/-- Lines 238-239: `a.split(':')` mapped through `parseInt(v, 10)` and read
as `[h, m]`; `none` is a `NaN` outcome. -/
def timeKey (s : String) : Option Int :=
  match (jsSplit s fun c => c = ':').map jsParseInt with
  | some h :: some m :: _ => some (h * 60 + m)
  | _ => none

/-- The comparator of lines 237-241 as a sort order: compare
minutes-since-midnight; a `NaN` difference counts as a tie (ECMAScript
treats a `NaN` comparator result as 0). -/
def timeLe (a b : Option Json) : Bool :=
  match a, b with
  | some (.str x), some (.str y) =>
    match timeKey x, timeKey y with
    | some kx, some ky => kx ≤ ky
    | _, _ => true
  | _, _ => true

/-- Lines 237-241: dedup the start values and sort them with the
minutes-since-midnight comparator.  Calling `split` on a non-string start
value throws; the sort invokes the comparator exactly when it has at least
two non-`undefined` elements. -/
def scheduleTimes (starts : List (Option Json)) : Except Unit (List (Option Json)) :=
  let uniq := jsSetDedup starts
  let defined := uniq.filter fun x => x.isSome
  if (defined.any fun x =>
        match x with
        | some (.str _) => false
        | _ => true) ∧ 2 ≤ defined.length then
    .error ()
  else
    .ok (jsSortBy timeLe defined ++ uniq.filter fun x => !x.isSome)

/-- `escapeHtml(v || '')` as applied at lines 254-256: a falsy value becomes
`''`; a truthy non-string reaches `String.prototype.replace` on a
non-string and throws. -/
def escFieldOrEmpty (v : Option Json) : Except Unit String :=
  match v with
  | some (.str s) => .ok (escapeHtml s)
  | v' => if jsTruthy v' then .error () else .ok ""

/-- `escapeHtml(v)` as applied at line 194: throws unless `v` is a string. -/
def escRequireStr (v : Option Json) : Except Unit String :=
  match v with
  | some (.str s) => .ok (escapeHtml s)
  | _ => .error ()

/-- Lines 251-260: one grid cell for `room` in the row of `time`. -/
def renderCell (dailyEvents : List Json) (time room : Option Json) : Except Unit String :=
  match dailyEvents.find? fun e =>
      jsStrictEq (jsonGet e "room") room && jsStrictEq (jsonGet e "start") time with
  | some ev => do
    let subj ← escFieldOrEmpty (jsonGet ev "discipline")
    let grp ← escFieldOrEmpty (jsonGet ev "group")
    return "<td class=\"occupied\"><div class=\"subject\">" ++ subj ++
      "</div><div class=\"group\">" ++ grp ++ "</div></td>"
  | none => .ok "<td class=\"free\">Свободно</td>"

/-- Lines 249-262: one table row, labelled by its 1-based position. -/
def renderRow (dailyEvents : List Json) (rooms : List (Option Json))
    (idx : Nat) (time : Option Json) : Except Unit String := do
  let cells ← rooms.foldlM (fun acc room =>
    do return acc ++ (← renderCell dailyEvents time room)) ""
  return "<tr><td>" ++ jsNatToString (idx + 1) ++ "</td><td>" ++ jsDisplay time ++
    "</td>" ++ cells ++ "</tr>"

/-- Line 229: the events filtered to exact matches on the selected building
and date. -/
def dailyEventsOf (elems : List Json) (building date : String) : List Json :=
  elems.filter fun ev =>
    jsStrictEq (jsonGet ev "building") (some (.str building)) &&
      jsStrictEq (jsonGet ev "date") (some (.str date))

/-- Lines 229-264: the schedule grid for a parsed `events` value and a
(building, date) selection.  Calling `filter` on a non-array throws. -/
def renderScheduleHtml (events : Json) (building date : String) :
    Except Unit String := do
  match events with
  | .arr elems =>
    let dailyEvents := dailyEventsOf elems building date
    if dailyEvents.isEmpty then
      return "<p>Нет занятий для выбранной даты.</p>"
    let rooms := jsSortDefault (jsSetDedup (dailyEvents.map fun ev => jsonGet ev "room"))
    let times ← scheduleTimes (dailyEvents.map fun ev => jsonGet ev "start")
    let headerCells := String.join (rooms.map fun room => "<th>" ++ jsDisplay room ++ "</th>")
    let body ← (times.enum.foldlM (fun acc p =>
      do return acc ++ (← renderRow dailyEvents rooms p.1 p.2)) "")
    return "<table class=\"schedule-table\"><thead><tr><th>Пара</th><th>Время</th>" ++
      headerCells ++ "</tr></thead><tbody>" ++ body ++ "</tbody></table>"
  | _ => .error ()

/-- Lines 220-266, `renderSchedule` as a function of the stored slot and the
current selection: no stored value means no render (`none`); a corrupt
stored value makes the unguarded `JSON.parse(stored)` at line 225 throw. -/
def renderScheduleM (store : Option String) (building date : String) :
    Except Unit (Option String) :=
  match store with
  | none => .ok none
  | some s =>
    match jsonParse s with
    | none => .error ()
    | some events => (renderScheduleHtml events building date).map some

/-- The DOM pieces `initSchedule` writes. -/
structure UIState where
  status : String
  controlsShown : Bool
  replaceShown : Bool
  scheduleHtml : String
  buildingOptions : String
  dateOptions : String
deriving DecidableEq, Repr

/-- Lines 157-162 and 168-174: the empty "upload a file" state; the selector
markup is left as it was. -/
def absentUI (ui : UIState) : UIState :=
  { ui with status := "Загрузите файл расписания."
            controlsShown := false
            replaceShown := false
            scheduleHtml := "" }

/-- Lines 191-198: one `<option>` for a building value; `escapeHtml(b)`
throws on a non-string. -/
def buildingOption (b : Option Json) : Except Unit String := do
  let safeValue ← escRequireStr b
  let label := if jsTruthy b then b else some (.str "Неизвестный корпус")
  let safeLabel ← escRequireStr label
  return "<option value=\"" ++ safeValue ++ "\">" ++ safeLabel ++ "</option>"

/-- Lines 199-201: one `<option>` for a date value; the label goes through
`escapeHtml(d)` which throws on a non-string. -/
def dateOption (d : Option Json) : Except Unit String := do
  let safeLabel ← escRequireStr d
  return "<option value=\"" ++ jsDisplay d ++ "\">" ++ safeLabel ++ "</option>"

/-- The `.value` of the first rendered option, which the subsequent
`renderSchedule` reads back; attribute entity decoding undoes `escapeHtml`
on the option values the claims concern. -/
def headValue (xs : List (Option Json)) : String :=
  jsDisplay (xs.headD none)

/-- Lines 150-209, `initSchedule`: read the slot, self-heal a corrupt value,
report an empty list, or populate the selectors and render.  The result is
the slot after the call and the DOM state; `Except.error` is an uncaught
exception out of the populated path. -/
def initScheduleM (store : Option String) (ui : UIState) :
    Except Unit (Option String × UIState) :=
  match store with
  | none => .ok (none, absentUI ui)
  | some s =>
    match jsonParse s with
    | none => .ok (none, absentUI ui)
    | some events =>
      match events with
      | .arr elems =>
        if elems.isEmpty then
          .ok (store, { ui with status := "Файл расписания не содержит данных."
                                controlsShown := false
                                replaceShown := false
                                scheduleHtml := "" })
        else do
          let buildings := jsSortDefault (jsSetDedup (elems.map fun ev => jsonGet ev "building"))
          let dates := jsSortDefault (jsSetDedup (elems.map fun ev => jsonGet ev "date"))
          let bOpts ← buildings.foldlM (fun acc b => do return acc ++ (← buildingOption b)) ""
          let dOpts ← dates.foldlM (fun acc d => do return acc ++ (← dateOption d)) ""
          let sched ← renderScheduleM store (headValue buildings) (headValue dates)
          return (store, { status := ""
                           controlsShown := true
                           replaceShown := true
                           scheduleHtml := sched.getD ui.scheduleHtml
                           buildingOptions := bOpts
                           dateOptions := dOpts })
      | _ =>
        .ok (store, { ui with status := "Файл расписания не содержит данных."
                              controlsShown := false
                              replaceShown := false
                              scheduleHtml := "" })

/-- The user-visible outcome of an upload. -/
inductive ParseOutcome where
  | headerNotFound
  | parseError
  | success
deriving DecidableEq, Repr

/-- Lines 63-140, `parseScheduleFile` after the file read completes: the
SheetJS decode result comes in as `workbook` (`Except.error` models a throw
inside `XLSX.read`/`sheet_to_json`, the only throwing step of the pipeline —
the row loop is built from total operations).  On success the serialized
events replace the slot (line 131) and `initSchedule` runs inside the same
`try`; any exception lands in the `catch` at lines 134-137, which touches
neither the slot nor the DOM beyond an alert. -/
def parseScheduleFileM (tz : Int) (workbook : Except Unit (List (List Cell)))
    (store : Option String) (ui : UIState) :
    Option String × UIState × ParseOutcome :=
  match workbook with
  | .error _ => (store, ui, .parseError)
  | .ok rows =>
    match parsedEvents tz rows with
    | none => (store, ui, .headerNotFound)
    | some evs =>
      let store' := some (stringifyEvents evs)
      match initScheduleM store' ui with
      | .ok (st, ui') => (st, ui', .success)
      | .error _ => (store', ui, .parseError)

/-! ## Service worker (`service-worker.js` lines 45-74)

The fetch handler, as a function of the request, the current cache contents
and the network.  The cache is an association list keyed by request URL; the
network is a function from requests to an optional response (`none` is a
network failure).  Responses are an abstract type. -/

/-- The parts of a `Request` the handler inspects. -/
structure SwRequest where
  method : String
  urlOrigin : String
  urlPath : String
  mode : String
deriving DecidableEq, Repr

/-- Full URL key of a request. -/
def SwRequest.url (r : SwRequest) : String := r.urlOrigin ++ r.urlPath

/-- `caches.match`. -/
def cacheMatch {ρ : Type} (cache : List (String × ρ)) (url : String) : Option ρ :=
  (cache.find? fun p => p.1 = url).map (·.2)

/-- Lines 45-74: the fetch listener.  Returns the cache after the event and
the response passed to `respondWith` (`none` when the handler returned
without calling it, or when the failure fallback produced nothing). -/
def handleFetch {ρ : Type} (selfOrigin : String) (net : SwRequest → Option ρ)
    (cache : List (String × ρ)) (req : SwRequest) :
    List (String × ρ) × Option ρ :=
  if req.method ≠ "GET" then (cache, none)
  else
    match cacheMatch cache req.url with
    | some cached => (cache, some cached)
    | none =>
      match net req with
      | some resp =>
        if req.urlOrigin = selfOrigin then
          (cache ++ [(req.url, resp)], some resp)
        else (cache, some resp)
      | none =>
        if req.mode = "navigate" then
          (cache, cacheMatch cache (selfOrigin ++ "index.html"))
        else (cache, none)

/-! ## Claim C2: header-label mapping and repeated labels -/

/-- The trimmed label a header cell contributes to the map, if any
(non-string cells and cells with an empty trim contribute none). -/
def cellLabel : Cell → Option String
  | .str s => if 0 < (jsTrim s).length then some (jsTrim s) else none
  | _ => none

/-- The position of the last cell carrying `label`, the "last occurrence
wins" reading of the header map. -/
def lastLabelIdx : List Cell → String → Option Nat
  | [], _ => none
  | c :: rest, label =>
    match lastLabelIdx rest label with
    | some j => some (j + 1)
    | none => if cellLabel c = some label then some 0 else none

/-- The `YYYY-MM-DD` combination of a year, month and day, as the spec
describes the canonical date form: the zero-padded decimal renderings joined
with dashes. -/
def isoYMDString (y m d : Int) : String :=
  padStartZeros (jsIntToString y) 4 ++ "-" ++ padStartZeros (jsIntToString m) 2 ++ "-" ++
    padStartZeros (jsIntToString d) 2

/-- Modelled from the spec: a numeric date cell value `n` is "a day-count
offset from a fixed epoch (days since 1899-12-30 ...), converted via
calendar arithmetic" to `YYYY-MM-DD`. -/
def specSerialDate (n : Int) : String :=
  isoYMDString (yearOf (daysFromCivil 1899 12 30 + n))
    (monthOf (daysFromCivil 1899 12 30 + n)) (dayOf (daysFromCivil 1899 12 30 + n))

/-! ## Claim C9: rows sorted by minutes-since-midnight -/

/-- First-occurrence deduplication of a string list: the distinct values in
order of first appearance, the spec's "distinct start values". -/
def dedupFirst (l : List String) : List String :=
  l.foldl (fun acc x => if acc.any fun y => x = y then acc else acc ++ [x]) []

/-- The minutes-since-midnight key of a grid row value. -/
def keyOfJson : Option Json → Option Int
  | some (.str s) => timeKey s
  | _ => none

/-- The grid markup of the spec's example: rooms 101 and 205, starts 09:00
and 10:45, row labels 1 and 2. -/
def exampleGridHtml : String :=
  "<table class=\"schedule-table\"><thead><tr><th>Пара</th><th>Время</th>" ++
  "<th>101</th><th>205</th></tr></thead><tbody>" ++
  "<tr><td>1</td><td>09:00</td><td class=\"occupied\"><div class=\"subject\">Математика" ++
  "</div><div class=\"group\">G1</div></td><td class=\"free\">Свободно</td></tr>" ++
  "<tr><td>2</td><td>10:45</td><td class=\"free\">Свободно</td>" ++
  "<td class=\"occupied\"><div class=\"subject\">Физика</div>" ++
  "<div class=\"group\">G2</div></td></tr></tbody></table>"

/-! ## Theorems -/

set_option maxHeartbeats 4000000 in
/-- The year-of-era formula inverts the start-of-year day-of-era formula. -/
theorem yoeFromDoe_eq (yoe doe : Int) (h1 : 0 ≤ yoe) (h2 : yoe ≤ 399)
    (hl : soyOfYoe yoe ≤ doe)
    (hr : doe < 365 * (yoe + 1) + (yoe + 1) / 4 - (yoe + 1) / 100 + (yoe + 1) / 400) :
    yoeFromDoe doe = yoe := by
  unfold soyOfYoe at hl
  unfold yoeFromDoe
  interval_cases yoe <;> omega

set_option maxHeartbeats 1000000 in
/-- Core inversion: `civilFromDays` recovers era, year of era, shifted month and
day from a day number presented in decomposed form. -/
theorem civil_core (z era yoe doy mp d y m : Int)
    (hy1 : 0 ≤ yoe) (hy2 : yoe ≤ 399)
    (hmp1 : 0 ≤ mp) (hmp2 : mp ≤ 11)
    (hdoy : doy = (153 * mp + 2) / 5 + d - 1)
    (hm : m = if mp < 10 then mp + 3 else mp - 9)
    (hy : y = (if m ≤ 2 then 1 else 0) + (yoe + era * 400))
    (hd1 : 1 ≤ d)
    (hdm : d ≤ (153 * (mp + 1) + 2) / 5 - (153 * mp + 2) / 5)
    (hdlen : doy < 365 + (yoe + 1) / 4 - yoe / 4 - ((yoe + 1) / 100 - yoe / 100) + (yoe + 1) / 400)
    (hz : z = era * 146097 + (365 * yoe + yoe / 4 - yoe / 100) + doy - 719468) :
    civilFromDays z = (y, m, d) := by
  have hera : eraOf z = era := by simp only [eraOf]; omega
  have hdoe : doeOf z = (365 * yoe + yoe / 4 - yoe / 100) + doy := by
    simp only [doeOf]; rw [hera]; omega
  have hyoe : yoeOf z = yoe := by
    simp only [yoeOf]; rw [hdoe]
    exact yoeFromDoe_eq yoe _ hy1 hy2 (by unfold soyOfYoe; omega) (by omega)
  have hdoy' : doyOf z = doy := by
    simp only [doyOf]; rw [hdoe, hyoe]; unfold soyOfYoe; omega
  have hmp' : mpOf z = mp := by
    simp only [mpOf]; rw [hdoy']; interval_cases mp <;> omega
  have hmon : monthOf z = m := by simp only [monthOf]; rw [hmp', hm]
  have hday : dayOf z = d := by simp only [dayOf]; rw [hdoy', hmp']; omega
  have hyear : yearOf z = y := by simp only [yearOf]; rw [hmon, hyoe, hera, hy]
  simp only [civilFromDays]; rw [hmon, hday, hyear]

set_option maxHeartbeats 2000000 in
/-- Round trip: converting a valid civil date to its day number and back
returns the same date. -/
theorem civilFromDays_daysFromCivil (y m d : Int)
    (hm1 : 1 ≤ m) (hm2 : m ≤ 12) (hd1 : 1 ≤ d) (hd2 : d ≤ daysInMonth y m) :
    civilFromDays (daysFromCivil y m d) = (y, m, d) := by
  have hleap : daysInMonth y m =
      if m = 2 then (if y % 4 = 0 ∧ (y % 100 ≠ 0 ∨ y % 400 = 0) then 29 else 28)
      else if m = 4 ∨ m = 6 ∨ m = 9 ∨ m = 11 then 30 else 31 := by
    unfold daysInMonth isLeap
    rcases Decidable.em (y % 4 = 0 ∧ (y % 100 ≠ 0 ∨ y % 400 = 0)) with h | h <;>
      · split <;> simp_all <;> omega
  rw [hleap] at hd2
  obtain ⟨era, yoe, hdec, hy1, hy2⟩ :
      ∃ era yoe, yShiftOf y m = 400 * era + yoe ∧ 0 ≤ yoe ∧ yoe ≤ 399 :=
    ⟨yShiftOf y m / 400, yShiftOf y m - 400 * (yShiftOf y m / 400), by omega, by omega, by omega⟩
  have hz : daysFromCivil y m d =
      era * 146097 + (365 * yoe + yoe / 4 - yoe / 100) + doyFromMp ((m + 9) % 12) d - 719468 := by
    unfold daysFromCivil soyOfYoe
    have h400 : yShiftOf y m / 400 = era := by omega
    rw [h400]
    have h401 : yShiftOf y m - era * 400 = yoe := by omega
    rw [h401]
  have hys : yShiftOf y m = if m ≤ 2 then y - 1 else y := rfl
  refine civil_core _ era yoe (doyFromMp ((m + 9) % 12) d) ((m + 9) % 12) d y m hy1 hy2
    (by omega) (by omega) rfl ?_ ?_ hd1 ?_ ?_ (by rw [hz])
  · interval_cases m <;> simp
  · split at hys <;> (split <;> omega)
  · interval_cases m <;> simp_all <;> omega
  · unfold doyFromMp
    split at hys
    · interval_cases m <;> simp_all <;> omega
    · interval_cases m <;> simp_all <;> omega

/-! Digit-rendering lemmas: the padded decimal rendering of a small number is
the evident list of digit characters. -/

theorem natToDigits_small (fuel n : Nat) (acc : List Char) (h : n < 10) :
    natToDigits fuel n acc = Char.ofNat (48 + n % 10) :: acc := by
  cases fuel <;> simp [natToDigits, h]

theorem natToDigits_step (fuel n : Nat) (acc : List Char) (h : ¬ n < 10) :
    natToDigits (fuel + 1) n acc = natToDigits fuel (n / 10) (Char.ofNat (48 + n % 10) :: acc) := by
  simp [natToDigits, h]

theorem jsNatDigits_lt10 (n : Nat) (h : n < 10) :
    jsNatDigits n = [Char.ofNat (48 + n % 10)] :=
  natToDigits_small n n [] h

theorem natToDigits_two (fuel n : Nat) (acc : List Char) (hf : 1 ≤ fuel)
    (h1 : 10 ≤ n) (h2 : n < 100) :
    natToDigits fuel n acc =
      Char.ofNat (48 + n / 10 % 10) :: Char.ofNat (48 + n % 10) :: acc := by
  obtain ⟨f, rfl⟩ : ∃ f, fuel = f + 1 := ⟨fuel - 1, by omega⟩
  rw [natToDigits_step f n acc (by omega), natToDigits_small f (n / 10) _ (by omega)]

theorem natToDigits_three (fuel n : Nat) (acc : List Char) (hf : 2 ≤ fuel)
    (h1 : 100 ≤ n) (h2 : n < 1000) :
    natToDigits fuel n acc =
      Char.ofNat (48 + n / 100 % 10) :: Char.ofNat (48 + n / 10 % 10)
        :: Char.ofNat (48 + n % 10) :: acc := by
  obtain ⟨f, rfl⟩ : ∃ f, fuel = f + 1 := ⟨fuel - 1, by omega⟩
  rw [natToDigits_step f n acc (by omega),
    natToDigits_two f (n / 10) _ (by omega) (by omega) (by omega)]
  have h3 : n / 10 / 10 = n / 100 := by omega
  rw [h3]

theorem natToDigits_four (fuel n : Nat) (acc : List Char) (hf : 3 ≤ fuel)
    (h1 : 1000 ≤ n) (h2 : n < 10000) :
    natToDigits fuel n acc =
      Char.ofNat (48 + n / 1000 % 10) :: Char.ofNat (48 + n / 100 % 10)
        :: Char.ofNat (48 + n / 10 % 10) :: Char.ofNat (48 + n % 10) :: acc := by
  obtain ⟨f, rfl⟩ : ∃ f, fuel = f + 1 := ⟨fuel - 1, by omega⟩
  rw [natToDigits_step f n acc (by omega),
    natToDigits_three f (n / 10) _ (by omega) (by omega) (by omega)]
  have h3 : n / 10 / 10 = n / 100 := by omega
  have h4 : n / 10 / 100 = n / 1000 := by omega
  rw [h3, h4]

/-- The four character positions of a 4-digit zero-padded decimal rendering. -/
theorem pad4_digits (n : Nat) (h : n < 10000) :
    padStartZeros (jsNatToString n) 4 =
      String.mk [Char.ofNat (48 + n / 1000 % 10), Char.ofNat (48 + n / 100 % 10),
        Char.ofNat (48 + n / 10 % 10), Char.ofNat (48 + n % 10)] := by
  rcases Decidable.em (n < 10) with h1 | h1
  · rw [jsNatToString, jsNatDigits_lt10 n h1]
    have e1 : n / 1000 % 10 = 0 := by omega
    have e2 : n / 100 % 10 = 0 := by omega
    have e3 : n / 10 % 10 = 0 := by omega
    have e4 : n % 10 = n := by omega
    rw [e1, e2, e3, e4]
    rfl
  rcases Decidable.em (n < 100) with h2 | h2
  · rw [jsNatToString, jsNatDigits, natToDigits_two n n [] (by omega) (by omega) h2]
    have e1 : n / 1000 % 10 = 0 := by omega
    have e2 : n / 100 % 10 = 0 := by omega
    rw [e1, e2]
    rfl
  rcases Decidable.em (n < 1000) with h3 | h3
  · rw [jsNatToString, jsNatDigits, natToDigits_three n n [] (by omega) (by omega) h3]
    have e1 : n / 1000 % 10 = 0 := by omega
    rw [e1]
    rfl
  · rw [jsNatToString, jsNatDigits, natToDigits_four n n [] (by omega) (by omega) h]
    rfl

/-- The two character positions of a 2-digit zero-padded decimal rendering. -/
theorem pad2_digits (n : Nat) (h : n < 100) :
    padStartZeros (jsNatToString n) 2 =
      String.mk [Char.ofNat (48 + n / 10 % 10), Char.ofNat (48 + n % 10)] := by
  rcases Decidable.em (n < 10) with h1 | h1
  · rw [jsNatToString, jsNatDigits_lt10 n h1]
    have e1 : n / 10 % 10 = 0 := by omega
    have e2 : n % 10 = n := by omega
    rw [e1, e2]
    rfl
  · rw [jsNatToString, jsNatDigits, natToDigits_two n n [] (by omega) (by omega) h]
    rfl

theorem buildHeaderMapFrom_eq (row : List Cell) (i : Nat) (m : String → Option Nat)
    (label : String) :
    buildHeaderMapFrom row i m label =
      match lastLabelIdx row label with
      | some j => some (i + j)
      | none => m label := by
  induction row generalizing i m with
  | nil => rfl
  | cons c rest ih =>
    simp only [buildHeaderMapFrom, lastLabelIdx]
    rw [ih]
    cases hr : lastLabelIdx rest label with
    | some j => simp only []; rw [Nat.add_comm j 1, ← Nat.add_assoc]
    | none =>
      cases c with
      | str s =>
        simp only [cellLabel]
        by_cases hlen : 0 < (jsTrim s).length <;> by_cases heq : label = jsTrim s <;>
          simp_all [eq_comm]
      | num n => simp [cellLabel]
      | date ms => simp [cellLabel]

/-- C2 (corrected): when a header label repeats, the header map holds the
column index of its last occurrence, not the first: the `forEach` assignment
at line 86 of `script.js` overwrites earlier indices. -/
theorem C2_header_label_last_occurrence_wins (row : List Cell) (label : String) :
    buildHeaderMap row label = lastLabelIdx row label := by
  unfold buildHeaderMap
  rw [buildHeaderMapFrom_eq]
  cases h : lastLabelIdx row label <;> simp

/-- C2 counterexample: in a header row whose label "Дата" occupies columns 0
and 1, the located header row maps "Дата" to column 1, not to the index 0 of
its first occurrence as the claim states. -/
theorem C2_counterexample :
    findHeaderIndex [[Cell.str "Дата", Cell.str "Дата", Cell.str "Время начала"]] = some 0 ∧
    buildHeaderMap [Cell.str "Дата", Cell.str "Дата", Cell.str "Время начала"] "Дата" = some 1 ∧
    ¬ buildHeaderMap [Cell.str "Дата", Cell.str "Дата", Cell.str "Время начала"] "Дата" = some 0 := by
  refine ⟨by decide, by decide, by decide⟩

/-! ## Claim C3: corrupt stored state -/

/-- C3 (corrected): a stored value that is not valid JSON makes `initSchedule`
clear the slot and behave exactly as if the slot were absent, with no
exception; but `renderSchedule` parses the slot again without a guard
(line 225), so reading the same corrupt slot from it throws. -/
theorem C3_corrupt_store_self_heals_but_render_throws (s : String) (ui : UIState)
    (b d : String) (h : jsonParse s = none) :
    initScheduleM (some s) ui = .ok (none, absentUI ui) ∧
    initScheduleM (some s) ui = initScheduleM none ui ∧
    renderScheduleM (some s) b d = .error () := by
  refine ⟨?_, ?_, ?_⟩ <;> simp [initScheduleM, renderScheduleM, h]

/-- C3 counterexample: on the concrete corrupt slot content `"not json"`,
`renderSchedule` — an operation that reads the store — propagates an
exception, so not every store-reading operation is exception-free. -/
theorem C3_counterexample :
    jsonParse "not json" = none ∧
    renderScheduleM (some "not json") "B" "2024-09-01" = .error () :=
  ⟨rfl, rfl⟩

/-- C3 witness. -/
theorem C3_witness :
    initScheduleM (some "not json") ⟨"", false, false, "", "", ""⟩ =
      .ok (none, absentUI ⟨"", false, false, "", "", ""⟩) ∧
    initScheduleM (some "not json") ⟨"", false, false, "", "", ""⟩ =
      initScheduleM none ⟨"", false, false, "", "", ""⟩ ∧
    renderScheduleM (some "not json") "Б" "2024-01-01" = .error () :=
  C3_corrupt_store_self_heals_but_render_throws "not json" ⟨"", false, false, "", "", ""⟩
    "Б" "2024-01-01" rfl

/-! ## Claim C8: atomic failure of ingestion -/

/-- C8 (confirmed): when the spreadsheet decode throws — the only throwing
step of the ingestion pipeline, every later step being built from total
operations — the `catch` at lines 134-137 fires before the `setItem` at
line 131 is reached: the stored slot and the DOM are exactly as before the
upload and the generic parse-error message is surfaced. -/
theorem C8_ingestion_fails_atomically (tz : Int) (store : Option String) (ui : UIState) :
    parseScheduleFileM tz (.error ()) store ui = (store, ui, .parseError) := rfl

/-! ## Claim C10: service-worker cache writes -/

/-- C10 (confirmed): the fetch handler leaves the cache unchanged unless the
request is a GET whose URL origin is the worker's own origin — non-GET
requests return before `respondWith`, and cross-origin responses skip the
`cache.put`. -/
theorem C10_cache_write_only_same_origin_get {ρ : Type} (selfOrigin : String)
    (net : SwRequest → Option ρ) (cache : List (String × ρ)) (req : SwRequest)
    (h : req.method ≠ "GET" ∨ req.urlOrigin ≠ selfOrigin) :
    (handleFetch selfOrigin net cache req).1 = cache := by
  unfold handleFetch
  rcases Decidable.em (req.method ≠ "GET") with hm | hm
  · rw [if_pos hm]
  · rw [if_neg hm]
    have ho : req.urlOrigin ≠ selfOrigin := by tauto
    cases cacheMatch cache req.url with
    | some cached => rfl
    | none =>
      simp only []
      cases net req with
      | some resp => simp [ho]
      | none => cases Decidable.em (req.mode = "navigate") with
        | inl hn => simp [hn]
        | inr hn => simp [hn]

/-- C10 witness. -/
theorem C10_witness :
    (handleFetch "https://app.example" (fun _ => none) ([] : List (String × Unit))
      ⟨"POST", "https://app.example", "/x", "cors"⟩).1 = [] ∧
    (handleFetch "https://app.example" (fun _ => some ()) [("k", ())]
      ⟨"GET", "https://cdn.example", "/y", "cors"⟩).1 = [("k", ())] :=
  ⟨C10_cache_write_only_same_origin_get "https://app.example" (fun _ => none) []
      ⟨"POST", "https://app.example", "/x", "cors"⟩ (Or.inl (by decide)),
    C10_cache_write_only_same_origin_get "https://app.example" (fun _ => some ()) [("k", ())]
      ⟨"GET", "https://cdn.example", "/y", "cors"⟩ (Or.inr (by decide))⟩

/-! ## Claim C1: HTML escaping in the grid -/

set_option maxRecDepth 200000 in
/-- C1 (code bug): `escapeHtml` does escape the five metacharacters and the
discipline `<script>` is rendered escaped, but the `room` header cell at
line 246 (and the `time` cell at line 250) interpolate user-supplied text
without escaping: a stored entry whose room is `<i>x` reaches the grid
markup verbatim as `<th><i>x</th>`. -/
theorem C1_room_header_rendered_unescaped :
    escapeHtml "<script>" = "&lt;script&gt;" ∧
    renderScheduleM
      (some (stringifyEvents
        [⟨"2024-09-01", "09:00", "", "", "<script>", "", "g1", "B", "<i>x", ""⟩]))
      "B" "2024-09-01" =
      .ok (some ("<table class=\"schedule-table\"><thead><tr><th>Пара</th><th>Время</th>" ++
        "<th><i>x</th></tr></thead><tbody><tr><td>1</td><td>09:00</td>" ++
        "<td class=\"occupied\"><div class=\"subject\">&lt;script&gt;</div>" ++
        "<div class=\"group\">g1</div></td></tr></tbody></table>")) :=
  ⟨rfl, rfl⟩

/-! ## Shared date-claim lemmas -/

/-- Component form of the calendar round trip. -/
theorem civil_components (y m d : Int) (hm1 : 1 ≤ m) (hm2 : m ≤ 12)
    (hd1 : 1 ≤ d) (hd2 : d ≤ daysInMonth y m) :
    yearOf (daysFromCivil y m d) = y ∧ monthOf (daysFromCivil y m d) = m ∧
      dayOf (daysFromCivil y m d) = d := by
  have h := civilFromDays_daysFromCivil y m d hm1 hm2 hd1 hd2
  unfold civilFromDays at h
  simpa [Prod.ext_iff] using h

/-- Crude range bound on day numbers of four-digit years. -/
theorem daysFromCivil_bounds (y m d : Int) (h1 : 0 ≤ y) (h2 : y ≤ 9999)
    (h3 : 1 ≤ m) (h4 : m ≤ 12) (h5 : 1 ≤ d) (h6 : d ≤ 31) :
    -750000 ≤ daysFromCivil y m d ∧ daysFromCivil y m d ≤ 3000000 := by
  obtain ⟨era, yoe, hdec, hyo1, hyo2⟩ :
      ∃ era yoe, yShiftOf y m = 400 * era + yoe ∧ 0 ≤ yoe ∧ yoe ≤ 399 :=
    ⟨yShiftOf y m / 400, yShiftOf y m - 400 * (yShiftOf y m / 400), by omega, by omega, by omega⟩
  have hys : -1 ≤ yShiftOf y m ∧ yShiftOf y m ≤ 9999 := by
    unfold yShiftOf
    split <;> omega
  unfold daysFromCivil soyOfYoe doyFromMp
  rw [show yShiftOf y m / 400 = era from by omega,
    show yShiftOf y m - era * 400 = yoe from by omega]
  omega

/-! ## Claim C5: numeric date cells -/

/-- C5 (corrected): at a non-negative UTC offset, and within the host `Date`
range, a numeric cell `n` normalizes to the calendar conversion of
1899-12-30 plus `n` days, and in particular `2` gives `1900-01-01`.  (At a
negative offset the local-time read shifts the date back one day — see the
counterexample.) -/
theorem C5_numeric_cell_serial_date (n tz : Int) (h1 : 0 ≤ tz) (h2 : tz < 1440)
    (h3 : -8640000000000000 ≤ sheetEpochMs + n * 86400000)
    (h4 : sheetEpochMs + n * 86400000 ≤ 8640000000000000) :
    normalizeDate tz (.num n) = specSerialDate n ∧ specSerialDate 2 = "1900-01-01" := by
  constructor
  · simp only [normalizeDate, dateCellToJsDate, mkJsTime]
    rw [if_pos ⟨h3, h4⟩]
    have hld : localDayOf tz (sheetEpochMs + n * 86400000) =
        daysFromCivil 1899 12 30 + n := by
      unfold localDayOf sheetEpochMs
      omega
    unfold isoStringOfDate jsGetFullYear jsGetMonth jsGetDate specSerialDate isoYMDString
      numOptToString
    simp [hld]
  · decide

/-- C5 counterexample: in a UTC-5 environment the numeric value 2 normalizes
to `1899-12-31`, not to the `1900-01-01` the claim states for every
environment: the code converts via UTC epoch arithmetic but reads the date
back with local-time accessors. -/
theorem C5_counterexample :
    normalizeDate (-300) (.num 2) = "1899-12-31" ∧
    ¬ ("1899-12-31" : String) = "1900-01-01" :=
  ⟨rfl, by decide⟩

/-- C5 witness. -/
theorem C5_witness : normalizeDate 180 (.num 2) = "1900-01-01" := by
  have h := C5_numeric_cell_serial_date 2 180 (by decide) (by decide) (by decide) (by decide)
  rw [h.1, h.2]

/-! ## Claim C6: string date cells with three parts -/

/-- C6 (corrected): a string date cell splitting into exactly three parts is
read positionally as day, month, year; for in-calendar values with a year of
at least 100 the result is the `YYYY-MM-DD` combination, at every UTC
offset, and in particular `"01.09.2024"` gives `"2024-09-01"`.  (The host
`Date` constructor maps years 0-99 to 1900-1999 — see the counterexample —
and rolls out-of-range day/month values over by calendar arithmetic.) -/
theorem C6_three_part_string_positional (tz : Int) (s ds ms2 ys : String) (dv mv yv : Int)
    (hsplit : jsSplit s (fun c => c = '.' || c = '/') = [ds, ms2, ys])
    (hpd : jsParseInt ds = some dv) (hpm : jsParseInt ms2 = some mv)
    (hpy : jsParseInt ys = some yv)
    (hy1 : 100 ≤ yv) (hy2 : yv ≤ 9999) (hm1 : 1 ≤ mv) (hm2 : mv ≤ 12)
    (hd1 : 1 ≤ dv) (hd2 : dv ≤ daysInMonth yv mv)
    (htz1 : -1440 < tz) (htz2 : tz < 1440) :
    normalizeDate tz (.str s) = isoYMDString yv mv dv := by
  have hd31 : dv ≤ 31 := by
    have h := hd2
    unfold daysInMonth at h
    split at h <;> (try split at h) <;> omega
  simp only [normalizeDate, dateCellToJsDate]
  rw [hsplit]
  simp only []
  rw [hpd, hpm, hpy]
  simp only [jsDateCtorYMD, jsMakeDay]
  have hyadj : (if 0 ≤ yv ∧ yv ≤ 99 then yv + 1900 else yv) = yv := by
    rw [if_neg]; omega
  have hdiv : yv + (mv - 1) / 12 = yv := by omega
  have hmod : (mv - 1) % 12 + 1 = mv := by omega
  rw [hyadj, hdiv, hmod]
  have hlin : daysFromCivil yv mv 1 + (dv - 1) = daysFromCivil yv mv dv := by
    unfold daysFromCivil doyFromMp
    omega
  rw [hlin]
  have hbnd := daysFromCivil_bounds yv mv dv (by omega) hy2 hm1 hm2 hd1 hd31
  unfold mkJsTime
  rw [if_pos (by constructor <;> omega)]
  have hld : localDayOf tz (daysFromCivil yv mv dv * 86400000 - tz * 60000) =
      daysFromCivil yv mv dv := by
    unfold localDayOf
    omega
  obtain ⟨hY, hM, hD⟩ := civil_components yv mv dv hm1 hm2 hd1 hd2
  unfold isoStringOfDate jsGetFullYear jsGetMonth jsGetDate isoYMDString numOptToString
  simp [hld, hY, hM, hD]

/-- C6 counterexample: `"01.01.0099"` splits into three parts whose year
reads as 99, but the result is `1999-01-01`, not the positional
`0099-01-01` combination the claim states: the host constructor offsets
years 0-99 by 1900. -/
theorem C6_counterexample :
    jsSplit "01.01.0099" (fun c => c = '.' || c = '/') = ["01", "01", "0099"] ∧
    jsParseInt "0099" = some 99 ∧
    normalizeDate 0 (.str "01.01.0099") = "1999-01-01" ∧
    ¬ ("1999-01-01" : String) = "0099-01-01" :=
  ⟨rfl, rfl, rfl, by decide⟩

/-- C6 witness. -/
theorem C6_witness : normalizeDate 180 (.str "01.09.2024") = "2024-09-01" := by
  have h := C6_three_part_string_positional 180 "01.09.2024" "01" "09" "2024" 1 9 2024
    rfl rfl rfl rfl (by decide) (by decide) (by decide) (by decide) (by decide)
    (by decide) (by decide) (by decide)
  rw [h]
  decide

/-! ## Claim C7: one entry per data row with a truthy date cell -/

/-- The row-length guard of the filter at line 90 is redundant: a truthy
date cell can only be read out of a non-empty row. -/
theorem lengthGuard_redundant (r : List Cell) (oi : Option Nat) :
    (decide (0 < r.length) && cellTruthyOpt (cellAt r oi)) = cellTruthyOpt (cellAt r oi) := by
  cases hc : cellAt r oi with
  | none => simp [cellTruthyOpt, Bool.and_false]
  | some c =>
    have hlen : 0 < r.length := by
      unfold cellAt at hc
      cases oi with
      | none => simp at hc
      | some i =>
        obtain ⟨hlt, -⟩ := List.get?_eq_some.mp (by simpa using hc)
        omega
    simp [hlen]

/-- Pushing through a list of rows that all carry a truthy date cell appends
exactly one entry per row, in order. -/
theorem foldl_push_map (tz : Int) (M : String → Option Nat) (l : List (List Cell))
    (acc : List ScheduleEntry)
    (h : ∀ r ∈ l, cellTruthyOpt (cellAt r (M "Дата")) = true) :
    l.foldl (fun evs row =>
      match cellAt row (M "Дата") with
      | none => evs
      | some c => if cellTruthy c then evs ++ [eventOfRow tz M row c] else evs) acc
    = acc ++ l.map (fun r =>
        eventOfRow tz M r ((cellAt r (M "Дата")).getD (Cell.str ""))) := by
  induction l generalizing acc with
  | nil => simp
  | cons r rest ih =>
    have hr := h r (by simp)
    cases hc : cellAt r (M "Дата") with
    | none => rw [hc] at hr; simp [cellTruthyOpt] at hr
    | some c =>
      rw [hc] at hr
      have hct : cellTruthy c = true := hr
      simp only [List.foldl_cons, List.map_cons, hc, hct, if_pos]
      rw [ih _ (fun r hmem => h r (by simp [hmem]))]
      simp

set_option maxHeartbeats 1000000 in
/-- C7 (corrected): with the header located at `hi`, ingestion emits exactly
one entry per data row after the header whose date cell is truthy — nonempty
and, for a numeric cell, nonzero — in the original row order.  (A row whose
date cell is the number 0 is non-empty yet skipped, because the guards at
lines 90 and 95 test ECMAScript truthiness; see the counterexample.) -/
theorem C7_one_entry_per_truthy_date_row (tz : Int) (rows : List (List Cell)) (hi : Nat)
    (hfind : findHeaderIndex rows = some hi) :
    parsedEvents tz rows = some
      (((rows.drop (hi + 1)).filter fun r =>
          cellTruthyOpt (cellAt r (buildHeaderMap (rows.getD hi []) "Дата"))).map
        fun r => eventOfRow tz (buildHeaderMap (rows.getD hi [])) r
          ((cellAt r (buildHeaderMap (rows.getD hi []) "Дата")).getD (Cell.str ""))) := by
  unfold parsedEvents
  rw [hfind]
  simp only [Option.some.injEq]
  rw [List.filter_congr (fun r _ =>
    lengthGuard_redundant r (buildHeaderMap (rows.getD hi []) "Дата"))]
  rw [foldl_push_map tz (buildHeaderMap (rows.getD hi [])) _ []
    (fun r hmem => (List.mem_filter.mp hmem).2)]
  simp

/-- C7 counterexample: a data row whose date cell is the number 0 — a
non-empty cell — is skipped: ingestion emits no entry for it. -/
theorem C7_counterexample :
    parsedEvents 0 [[Cell.str "Дата", Cell.str "Время начала"],
      [Cell.num 0, Cell.str "09:00"]] = some [] ∧
    cellAt [Cell.num 0, Cell.str "09:00"]
      (buildHeaderMap [Cell.str "Дата", Cell.str "Время начала"] "Дата") =
      some (Cell.num 0) ∧
    ¬ Cell.num 0 = Cell.str "" := by
  refine ⟨by decide, by decide, by decide⟩

set_option maxRecDepth 100000 in
/-- C7 witness: a header row, one dated row, one empty-date row (skipped)
and one numeric-date row, in order. -/
theorem C7_witness :
    findHeaderIndex [[Cell.str "Дата", Cell.str "Время начала"],
      [Cell.str "01.09.2024", Cell.str "09:00"],
      [Cell.str "", Cell.str "10:00"],
      [Cell.num 45000, Cell.str "11:00"]] = some 0 ∧
    parsedEvents 0 [[Cell.str "Дата", Cell.str "Время начала"],
      [Cell.str "01.09.2024", Cell.str "09:00"],
      [Cell.str "", Cell.str "10:00"],
      [Cell.num 45000, Cell.str "11:00"]] = some
      [⟨"2024-09-01", "09:00", "", "", "", "", "", "", "", ""⟩,
       ⟨"2023-03-15", "11:00", "", "", "", "", "", "", "", ""⟩] := by
  refine ⟨by decide, ?_⟩
  rw [C7_one_entry_per_truthy_date_row 0 _ 0 (by decide)]
  rfl

/-! ## Claim C4: idempotence on canonical dates -/

theorem jsIntToString_nonneg (i : Int) (h : 0 ≤ i) :
    jsIntToString i = jsNatToString i.natAbs := by
  unfold jsIntToString
  rw [if_neg (by omega)]

theorem digitChar_isDigit : ∀ k : Nat, k < 10 → (Char.ofNat (48 + k)).isDigit = true := by
  decide

theorem digitChar_toNat : ∀ k : Nat, k < 10 → (Char.ofNat (48 + k)).toNat = 48 + k := by
  decide

theorem digitChar_not_sep : ∀ k : Nat, k < 10 →
    ((Char.ofNat (48 + k) = '.' : Bool) || (Char.ofNat (48 + k) = '/' : Bool)) = false := by
  decide

theorem splitList_no_sep (p : Char → Bool) (l : List Char) (h : ∀ c ∈ l, p c = false) :
    splitList p l = [l] := by
  induction l with
  | nil => rfl
  | cons c cs ih =>
    have hc := h c (by simp)
    simp only [splitList]
    rw [ih (fun x hx => h x (by simp [hx])), hc]
    simp

/-- The characters of the canonical `YYYY-MM-DD` rendering of in-range
values. -/
theorem isoYMDString_toList (y m d : Int) (hy1 : 0 ≤ y) (hy2 : y ≤ 9999)
    (hm1 : 0 ≤ m) (hm2 : m ≤ 99) (hd1 : 0 ≤ d) (hd2 : d ≤ 99) :
    (isoYMDString y m d).toList =
      [Char.ofNat (48 + y.natAbs / 1000 % 10), Char.ofNat (48 + y.natAbs / 100 % 10),
       Char.ofNat (48 + y.natAbs / 10 % 10), Char.ofNat (48 + y.natAbs % 10), '-',
       Char.ofNat (48 + m.natAbs / 10 % 10), Char.ofNat (48 + m.natAbs % 10), '-',
       Char.ofNat (48 + d.natAbs / 10 % 10), Char.ofNat (48 + d.natAbs % 10)] := by
  unfold isoYMDString
  rw [jsIntToString_nonneg y hy1, jsIntToString_nonneg m hm1, jsIntToString_nonneg d hd1,
    pad4_digits y.natAbs (by omega), pad2_digits m.natAbs (by omega),
    pad2_digits d.natAbs (by omega)]
  rfl

set_option maxHeartbeats 1000000 in
/-- C4 (corrected): at a non-negative UTC offset, normalization is the
identity on every canonical `YYYY-MM-DD` string denoting a valid calendar
date.  (At a negative offset the string is parsed as UTC midnight but read
back with local-time accessors, shifting the date back one day — see the
counterexample.) -/
theorem C4_normalize_idempotent_on_canonical (y m d tz : Int)
    (hy1 : 0 ≤ y) (hy2 : y ≤ 9999) (hm1 : 1 ≤ m) (hm2 : m ≤ 12)
    (hd1 : 1 ≤ d) (hd2 : d ≤ daysInMonth y m)
    (htz1 : 0 ≤ tz) (htz2 : tz < 1440) :
    normalizeDate tz (.str (isoYMDString y m d)) = isoYMDString y m d := by
  have hd31 : d ≤ 31 := by
    have h := hd2
    unfold daysInMonth at h
    split at h <;> (try split at h) <;> omega
  have hlist := isoYMDString_toList y m d hy1 hy2 (by omega) (by omega) (by omega) (by omega)
  have hnosep : ∀ c ∈ (isoYMDString y m d).toList,
      ((c = '.' : Bool) || (c = '/' : Bool)) = false := by
    rw [hlist]
    intro c hc
    simp only [List.mem_cons, List.not_mem_nil, or_false] at hc
    rcases hc with rfl | rfl | rfl | rfl | rfl | rfl | rfl | rfl | rfl | rfl
    · exact digitChar_not_sep _ (Nat.mod_lt _ (by omega))
    · exact digitChar_not_sep _ (Nat.mod_lt _ (by omega))
    · exact digitChar_not_sep _ (Nat.mod_lt _ (by omega))
    · exact digitChar_not_sep _ (Nat.mod_lt _ (by omega))
    · decide
    · exact digitChar_not_sep _ (Nat.mod_lt _ (by omega))
    · exact digitChar_not_sep _ (Nat.mod_lt _ (by omega))
    · decide
    · exact digitChar_not_sep _ (Nat.mod_lt _ (by omega))
    · exact digitChar_not_sep _ (Nat.mod_lt _ (by omega))
  have hsplit : jsSplit (isoYMDString y m d) (fun c => c = '.' || c = '/') =
      [String.mk ((isoYMDString y m d).toList)] := by
    unfold jsSplit
    rw [splitList_no_sep _ _ hnosep]
    rfl
  have hparse : jsDateFromString (isoYMDString y m d) =
      some (daysFromCivil y m d * 86400000) := by
    simp only [jsDateFromString, hlist]
    rw [if_pos ⟨digitChar_isDigit _ (Nat.mod_lt _ (by omega)),
      digitChar_isDigit _ (Nat.mod_lt _ (by omega)),
      digitChar_isDigit _ (Nat.mod_lt _ (by omega)),
      digitChar_isDigit _ (Nat.mod_lt _ (by omega)), trivial,
      digitChar_isDigit _ (Nat.mod_lt _ (by omega)),
      digitChar_isDigit _ (Nat.mod_lt _ (by omega)), trivial,
      digitChar_isDigit _ (Nat.mod_lt _ (by omega)),
      digitChar_isDigit _ (Nat.mod_lt _ (by omega))⟩]
    have hyv : digitVal (Char.ofNat (48 + y.natAbs / 1000 % 10)) * 1000 +
        digitVal (Char.ofNat (48 + y.natAbs / 100 % 10)) * 100 +
        digitVal (Char.ofNat (48 + y.natAbs / 10 % 10)) * 10 +
        digitVal (Char.ofNat (48 + y.natAbs % 10)) = y := by
      rcases Int.eq_ofNat_of_zero_le hy1 with ⟨yn, hyn⟩
      subst hyn
      unfold digitVal
      simp only [Int.natAbs_ofNat]
      rw [digitChar_toNat _ (Nat.mod_lt _ (by omega)),
        digitChar_toNat _ (Nat.mod_lt _ (by omega)),
        digitChar_toNat _ (Nat.mod_lt _ (by omega)),
        digitChar_toNat _ (Nat.mod_lt _ (by omega))]
      push_cast
      omega
    have hmv : digitVal (Char.ofNat (48 + m.natAbs / 10 % 10)) * 10 +
        digitVal (Char.ofNat (48 + m.natAbs % 10)) = m := by
      rcases Int.eq_ofNat_of_zero_le (by omega : (0:Int) ≤ m) with ⟨mn, hmn⟩
      subst hmn
      unfold digitVal
      simp only [Int.natAbs_ofNat]
      rw [digitChar_toNat _ (Nat.mod_lt _ (by omega)),
        digitChar_toNat _ (Nat.mod_lt _ (by omega))]
      push_cast
      omega
    have hdv : digitVal (Char.ofNat (48 + d.natAbs / 10 % 10)) * 10 +
        digitVal (Char.ofNat (48 + d.natAbs % 10)) = d := by
      rcases Int.eq_ofNat_of_zero_le (by omega : (0:Int) ≤ d) with ⟨dn, hdn⟩
      subst hdn
      unfold digitVal
      simp only [Int.natAbs_ofNat]
      rw [digitChar_toNat _ (Nat.mod_lt _ (by omega)),
        digitChar_toNat _ (Nat.mod_lt _ (by omega))]
      push_cast
      omega
    rw [hyv, hmv, hdv]
    rw [if_pos ⟨hm1, hm2, hd1, hd2⟩]
    have hbnd := daysFromCivil_bounds y m d hy1 hy2 hm1 hm2 hd1 hd31
    unfold mkJsTime
    rw [if_pos (by constructor <;> omega)]
  simp only [normalizeDate, dateCellToJsDate]
  rw [hsplit]
  simp only []
  rw [hparse]
  have hld : localDayOf tz (daysFromCivil y m d * 86400000) = daysFromCivil y m d := by
    unfold localDayOf
    omega
  obtain ⟨hY, hM, hD⟩ := civil_components y m d hm1 hm2 hd1 hd2
  unfold isoStringOfDate jsGetFullYear jsGetMonth jsGetDate numOptToString
  simp [hld, hY, hM, hD, isoYMDString]

/-- C4 counterexample: in a UTC-5 environment the canonical valid date
`2024-09-01` does not normalize to itself: the ISO string is parsed as UTC
midnight but the accessors read the previous local day. -/
theorem C4_counterexample :
    normalizeDate (-300) (.str "2024-09-01") = "2024-08-31" ∧
    ¬ ("2024-08-31" : String) = "2024-09-01" :=
  ⟨rfl, by decide⟩

/-- C4 witness. -/
theorem C4_witness :
    isoYMDString 2024 9 1 = "2024-09-01" ∧
    normalizeDate 180 (.str (isoYMDString 2024 9 1)) = isoYMDString 2024 9 1 :=
  ⟨by decide, C4_normalize_idempotent_on_canonical 2024 9 1 180 (by decide) (by decide)
    (by decide) (by decide) (by decide) (by decide) (by decide) (by decide)⟩

theorem jsSetDedup_map_str (l : List String) :
    jsSetDedup (l.map fun s => some (Json.str s)) =
      (dedupFirst l).map fun s => some (Json.str s) := by
  suffices h : ∀ (accS : List String),
      (l.map fun s => some (Json.str s)).foldl
        (fun acc x => if acc.any (fun y => jsStrictEq x y) then acc else acc ++ [x])
        (accS.map fun s => some (Json.str s)) =
      (l.foldl (fun acc x => if acc.any (fun y => x = y) then acc else acc ++ [x]) accS).map
        fun s => some (Json.str s) by
    exact h []
  induction l with
  | nil => intro accS; rfl
  | cons x xs ih =>
    intro accS
    have hany : ∀ (acc : List String),
        ((acc.map fun s => some (Json.str s)).any
          fun y => jsStrictEq (some (Json.str x)) y) = (acc.any fun y => x = y) := by
      intro acc
      induction acc with
      | nil => rfl
      | cons a as ihh =>
        simp only [List.map_cons, List.any_cons, ihh]
        rfl
    simp only [List.map_cons, List.foldl_cons, hany]
    rcases Decidable.em ((accS.any fun y => x = y) = true) with ht | ht
    · rw [ht]
      simp only [if_true]
      exact ih accS
    · have hf : (accS.any fun y => x = y) = false := by
        cases h : (accS.any fun y => x = y) with
        | true => exact absurd h ht
        | false => rfl
      rw [hf]
      simp only [if_false, Bool.false_eq_true]
      rw [show (accS.map fun s => some (Json.str s)) ++ [some (Json.str x)] =
        (accS ++ [x]).map (fun s => some (Json.str s)) from by simp]
      exact ih (accS ++ [x])

theorem dedupFirst_subset (l : List String) (x : String) (h : x ∈ dedupFirst l) : x ∈ l := by
  have haux : ∀ (zs acc : List String),
      x ∈ zs.foldl (fun acc x => if acc.any fun y => x = y then acc else acc ++ [x]) acc →
      x ∈ acc ∨ x ∈ zs := by
    intro zs
    induction zs with
    | nil => intro acc hm; exact Or.inl hm
    | cons z rest ih =>
      intro acc hm
      simp only [List.foldl_cons] at hm
      rcases Decidable.em ((acc.any fun y => z = y) = true) with ht | ht
      · rw [if_pos ht] at hm
        rcases ih acc hm with hc | hc
        · exact Or.inl hc
        · exact Or.inr (by simp [hc])
      · rw [if_neg ht] at hm
        rcases ih (acc ++ [z]) hm with hc | hc
        · rcases List.mem_append.mp hc with hc2 | hc2
          · exact Or.inl hc2
          · simp only [List.mem_singleton] at hc2
            exact Or.inr (by simp [hc2])
        · exact Or.inr (by simp [hc])
  rcases haux l [] h with hc | hc
  · exact absurd hc (by simp)
  · exact hc

theorem insertLe_perm {α : Type} (le : α → α → Bool) (x : α) (l : List α) :
    (insertLe le x l).Perm (x :: l) := by
  induction l with
  | nil => exact List.Perm.refl _
  | cons y ys ih =>
    unfold insertLe
    rcases Decidable.em (le y x = true) with ht | ht
    · rw [if_pos ht]
      exact List.Perm.trans (List.Perm.cons y ih) (List.Perm.swap x y ys)
    · rw [if_neg ht]

theorem jsSortBy_perm {α : Type} (le : α → α → Bool) (l : List α) :
    (jsSortBy le l).Perm l := by
  have haux : ∀ (zs acc : List α),
      (zs.foldl (fun a x => insertLe le x a) acc).Perm (acc ++ zs) := by
    intro zs
    induction zs with
    | nil => intro acc; simp
    | cons x xs ih =>
      intro acc
      simp only [List.foldl_cons]
      have h1 := ih (insertLe le x acc)
      have h2 : (insertLe le x acc ++ xs).Perm ((x :: acc) ++ xs) :=
        (insertLe_perm le x acc).append_right xs
      have h4 : (x :: (acc ++ xs)).Perm (acc ++ x :: xs) := List.perm_middle.symm
      exact h1.trans (h2.trans h4)
  simpa using haux l []

theorem insertLe_pairwise {α : Type} (P : α → Prop) (le : α → α → Bool)
    (htot : ∀ a b, P a → P b → le a b = true ∨ le b a = true)
    (htrans : ∀ a b c, P a → P b → P c → le a b = true → le b c = true → le a c = true)
    (x : α) (l : List α) (hx : P x) (hl : ∀ y ∈ l, P y)
    (hs : l.Pairwise fun a b => le a b = true) :
    (insertLe le x l).Pairwise fun a b => le a b = true := by
  induction l with
  | nil => simp [insertLe]
  | cons y ys ih =>
    have hy : P y := hl y (by simp)
    have hys : ∀ z ∈ ys, P z := fun z hz => hl z (by simp [hz])
    rcases List.pairwise_cons.mp hs with ⟨hyall, hstail⟩
    unfold insertLe
    rcases Decidable.em (le y x = true) with ht | ht
    · rw [if_pos ht]
      refine List.pairwise_cons.mpr ⟨?_, ih hys hstail⟩
      intro z hz
      have hz2 : z ∈ x :: ys := (insertLe_perm le x ys).mem_iff.mp hz
      rcases List.mem_cons.mp hz2 with rfl | hz3
      · exact ht
      · exact hyall z hz3
    · rw [if_neg ht]
      have hxy : le x y = true := by
        rcases htot x y hx hy with h | h
        · exact h
        · exact absurd h ht
      refine List.pairwise_cons.mpr ⟨?_, hs⟩
      intro z hz
      rcases List.mem_cons.mp hz with rfl | hz2
      · exact hxy
      · exact htrans x y z hx hy (hys z hz2) hxy (hyall z hz2)

theorem jsSortBy_pairwise {α : Type} (P : α → Prop) (le : α → α → Bool)
    (htot : ∀ a b, P a → P b → le a b = true ∨ le b a = true)
    (htrans : ∀ a b c, P a → P b → P c → le a b = true → le b c = true → le a c = true)
    (l : List α) (hl : ∀ y ∈ l, P y) :
    (jsSortBy le l).Pairwise fun a b => le a b = true := by
  have haux : ∀ (zs : List α), (∀ y ∈ zs, P y) → ∀ (acc : List α), (∀ y ∈ acc, P y) →
      (acc.Pairwise fun a b => le a b = true) →
      (zs.foldl (fun a x => insertLe le x a) acc).Pairwise fun a b => le a b = true := by
    intro zs
    induction zs with
    | nil => intro _ acc _ hp; exact hp
    | cons x xs ih =>
      intro hzs acc hacc hp
      simp only [List.foldl_cons]
      have hx : P x := hzs x (by simp)
      have hxs : ∀ y ∈ xs, P y := fun y hy => hzs y (by simp [hy])
      refine ih hxs (insertLe le x acc) ?_ ?_
      · intro y hy
        rcases List.mem_cons.mp ((insertLe_perm le x acc).mem_iff.mp hy) with rfl | hy2
        · exact hx
        · exact hacc y hy2
      · exact insertLe_pairwise P le htot htrans x acc hx hacc hp
  exact haux l hl [] (by simp) (by simp)

theorem timeLe_total (a b : Option Json)
    (ha : ∃ s, a = some (Json.str s) ∧ (timeKey s).isSome = true)
    (hb : ∃ s, b = some (Json.str s) ∧ (timeKey s).isSome = true) :
    timeLe a b = true ∨ timeLe b a = true := by
  rcases ha with ⟨sa, rfl, hka⟩
  rcases hb with ⟨sb, rfl, hkb⟩
  rcases Option.isSome_iff_exists.mp hka with ⟨ka, hka2⟩
  rcases Option.isSome_iff_exists.mp hkb with ⟨kb, hkb2⟩
  rcases Int.le_total ka kb with h | h
  · left; simp [timeLe, hka2, hkb2, h]
  · right; simp [timeLe, hka2, hkb2, h]

theorem timeLe_trans (a b c : Option Json)
    (ha : ∃ s, a = some (Json.str s) ∧ (timeKey s).isSome = true)
    (hb : ∃ s, b = some (Json.str s) ∧ (timeKey s).isSome = true)
    (hc : ∃ s, c = some (Json.str s) ∧ (timeKey s).isSome = true)
    (h1 : timeLe a b = true) (h2 : timeLe b c = true) : timeLe a c = true := by
  rcases ha with ⟨sa, rfl, hka⟩
  rcases hb with ⟨sb, rfl, hkb⟩
  rcases hc with ⟨sc, rfl, hkc⟩
  rcases Option.isSome_iff_exists.mp hka with ⟨ka, hka2⟩
  rcases Option.isSome_iff_exists.mp hkb with ⟨kb, hkb2⟩
  rcases Option.isSome_iff_exists.mp hkc with ⟨kc, hkc2⟩
  simp [timeLe, hka2, hkb2, hkc2] at h1 h2 ⊢
  omega

theorem timeLe_key (a b : Option Json) (ka kb : Int)
    (hka : keyOfJson a = some ka) (hkb : keyOfJson b = some kb)
    (h : timeLe a b = true) : ka ≤ kb := by
  cases a with
  | none => simp [keyOfJson] at hka
  | some ja =>
    cases b with
    | none => simp [keyOfJson] at hkb
    | some jb =>
      cases ja with
      | str sa =>
        cases jb with
        | str sb =>
          simp only [keyOfJson] at hka hkb
          simp [timeLe, hka, hkb] at h
          exact h
        | null => simp [keyOfJson] at hkb
        | bool x => simp [keyOfJson] at hkb
        | num x => simp [keyOfJson] at hkb
        | numF x => simp [keyOfJson] at hkb
        | arr x => simp [keyOfJson] at hkb
        | obj x => simp [keyOfJson] at hkb
      | null => simp [keyOfJson] at hka
      | bool x => simp [keyOfJson] at hka
      | num x => simp [keyOfJson] at hka
      | numF x => simp [keyOfJson] at hka
      | arr x => simp [keyOfJson] at hka
      | obj x => simp [keyOfJson] at hka

set_option maxHeartbeats 1000000 in
/-- The time rows produced for a list of well-formed entries whose start
values all parse as `HH:MM`: no exception, a permutation of the distinct
start values, sorted by minutes since midnight. -/
theorem scheduleTimes_sorted (daily : List ScheduleEntry)
    (hval : ∀ e ∈ daily, (timeKey e.start).isSome = true) :
    ∃ ts, scheduleTimes ((daily.map ScheduleEntry.toJson).map fun ev => jsonGet ev "start") =
        .ok ts ∧
      ts.Perm ((dedupFirst (daily.map fun e => e.start)).map fun s => some (Json.str s)) ∧
      ts.Pairwise fun a b => ∀ ka kb, keyOfJson a = some ka → keyOfJson b = some kb →
        ka ≤ kb := by
  have hm1 : ((daily.map ScheduleEntry.toJson).map fun ev => jsonGet ev "start") =
      (daily.map fun e => e.start).map fun s => some (Json.str s) := by
    rw [List.map_map, List.map_map]
    rfl
  rw [hm1]
  have hstartmem : ∀ s ∈ daily.map (fun e => e.start), (timeKey s).isSome = true := by
    intro s hs
    rcases List.mem_map.mp hs with ⟨e, he, rfl⟩
    exact hval e he
  have humem : ∀ x ∈ (dedupFirst (daily.map fun e => e.start)).map (fun s => some (Json.str s)),
      ∃ s, x = some (Json.str s) ∧ (timeKey s).isSome = true := by
    intro x hx
    rcases List.mem_map.mp hx with ⟨s, hs, rfl⟩
    exact ⟨s, rfl, hstartmem s (dedupFirst_subset _ _ hs)⟩
  simp only [scheduleTimes]
  rw [jsSetDedup_map_str]
  have hfilter1 : ((dedupFirst (daily.map fun e => e.start)).map
      (fun s => some (Json.str s))).filter (fun x => x.isSome) =
      (dedupFirst (daily.map fun e => e.start)).map fun s => some (Json.str s) := by
    apply List.filter_eq_self.mpr
    intro x hx
    rcases humem x hx with ⟨s, rfl, -⟩
    rfl
  have hfilter2 : ((dedupFirst (daily.map fun e => e.start)).map
      (fun s => some (Json.str s))).filter (fun x => !x.isSome) = [] := by
    apply List.filter_eq_nil.mpr
    intro x hx
    rcases humem x hx with ⟨s, rfl, -⟩
    simp
  have hguard : (((dedupFirst (daily.map fun e => e.start)).map
      fun s => some (Json.str s)).any fun x =>
      match x with | some (.str _) => false | _ => true) = false := by
    apply List.any_eq_false.mpr
    intro x hx
    rcases humem x hx with ⟨s, rfl, -⟩
    simp
  rw [hfilter1, hfilter2]
  rw [if_neg (by rw [hguard]; simp)]
  rw [List.append_nil]
  refine ⟨_, rfl, jsSortBy_perm timeLe _, ?_⟩
  have hpw := jsSortBy_pairwise
    (fun x => ∃ s, x = some (Json.str s) ∧ (timeKey s).isSome = true)
    timeLe timeLe_total timeLe_trans _ humem
  exact hpw.imp fun hle ka kb hka hkb => timeLe_key _ _ ka kb hka hkb hle

theorem dailyEventsOf_encode (evs : List ScheduleEntry) (b d : String) :
    dailyEventsOf (evs.map ScheduleEntry.toJson) b d =
      (evs.filter fun e => decide (e.building = b) && decide (e.date = d)).map
        ScheduleEntry.toJson := by
  induction evs with
  | nil => rfl
  | cons e rest ih =>
    have hpe : (jsStrictEq (jsonGet (ScheduleEntry.toJson e) "building")
        (some (Json.str b)) &&
        jsStrictEq (jsonGet (ScheduleEntry.toJson e) "date") (some (Json.str d))) =
        (decide (e.building = b) && decide (e.date = d)) := rfl
    unfold dailyEventsOf at ih ⊢
    cases hc : (decide (e.building = b) && decide (e.date = d)) with
    | true => simp [List.filter_cons, hpe, hc, ih]
    | false => simp [List.filter_cons, hpe, hc, ih]

set_option maxRecDepth 400000 in
set_option maxHeartbeats 1000000 in
/-- C9 (confirmed): for a (building, date) selection whose filtered entries
all carry parseable `HH:MM` starts, the grid's time rows are exactly the
distinct start values (a permutation of the first-occurrence dedup), ordered
by minutes since midnight; and on the spec's concrete example the rendered
rows are 09:00 then 10:45 with labels 1 and 2 under either insertion
order. -/
theorem C9_rows_sorted_by_minutes (evs : List ScheduleEntry) (b d : String)
    (hne : evs.filter (fun e => decide (e.building = b) && decide (e.date = d)) ≠ [])
    (hval : ∀ e ∈ evs.filter (fun e => decide (e.building = b) && decide (e.date = d)),
      (timeKey e.start).isSome = true) :
    (∃ ts,
      scheduleTimes ((dailyEventsOf (evs.map ScheduleEntry.toJson) b d).map
        fun ev => jsonGet ev "start") = .ok ts ∧
      ts.Perm ((dedupFirst ((evs.filter
        fun e => decide (e.building = b) && decide (e.date = d)).map
          fun e => e.start)).map fun s => some (Json.str s)) ∧
      ts.Pairwise fun x y => ∀ kx ky, keyOfJson x = some kx → keyOfJson y = some ky →
        kx ≤ ky) ∧
    renderScheduleM (some (stringifyEvents
      [⟨"2024-09-01", "10:45", "", "", "Физика", "", "G2", "B", "205", ""⟩,
       ⟨"2024-09-01", "09:00", "", "", "Математика", "", "G1", "B", "101", ""⟩]))
      "B" "2024-09-01" = .ok (some exampleGridHtml) ∧
    renderScheduleM (some (stringifyEvents
      [⟨"2024-09-01", "09:00", "", "", "Математика", "", "G1", "B", "101", ""⟩,
       ⟨"2024-09-01", "10:45", "", "", "Физика", "", "G2", "B", "205", ""⟩]))
      "B" "2024-09-01" = .ok (some exampleGridHtml) := by
  refine ⟨?_, rfl, rfl⟩
  rw [dailyEventsOf_encode]
  exact scheduleTimes_sorted _ hval

set_option maxRecDepth 400000 in
/-- C9 witness. -/
theorem C9_witness :
    (∃ ts,
      scheduleTimes ((dailyEventsOf
        ([⟨"2024-09-01", "10:45", "", "", "Физика", "", "G2", "B", "205", ""⟩,
          ⟨"2024-09-01", "09:00", "", "", "Математика", "", "G1", "B", "101", ""⟩].map
          ScheduleEntry.toJson) "B" "2024-09-01").map
        fun ev => jsonGet ev "start") = .ok ts ∧
      ts.Perm ((dedupFirst ((([⟨"2024-09-01", "10:45", "", "", "Физика", "", "G2", "B", "205", ""⟩,
          ⟨"2024-09-01", "09:00", "", "", "Математика", "", "G1", "B", "101", ""⟩] :
            List ScheduleEntry).filter
        fun e => decide (e.building = "B") && decide (e.date = "2024-09-01")).map
          fun e => e.start)).map fun s => some (Json.str s)) ∧
      ts.Pairwise fun x y => ∀ kx ky, keyOfJson x = some kx → keyOfJson y = some ky →
        kx ≤ ky) ∧
    renderScheduleM (some (stringifyEvents
      [⟨"2024-09-01", "10:45", "", "", "Физика", "", "G2", "B", "205", ""⟩,
       ⟨"2024-09-01", "09:00", "", "", "Математика", "", "G1", "B", "101", ""⟩]))
      "B" "2024-09-01" = .ok (some exampleGridHtml) ∧
    renderScheduleM (some (stringifyEvents
      [⟨"2024-09-01", "09:00", "", "", "Математика", "", "G1", "B", "101", ""⟩,
       ⟨"2024-09-01", "10:45", "", "", "Физика", "", "G2", "B", "205", ""⟩]))
      "B" "2024-09-01" = .ok (some exampleGridHtml) :=
  C9_rows_sorted_by_minutes
    [⟨"2024-09-01", "10:45", "", "", "Физика", "", "G2", "B", "205", ""⟩,
     ⟨"2024-09-01", "09:00", "", "", "Математика", "", "G1", "B", "101", ""⟩]
    "B" "2024-09-01" (by decide) (by decide)
